import Mathlib

/-!
Tetris engine (`script.js`): shallow embedding and verified properties.

The engine state of `script.js` (the globals `board`, `score`, `gameOver`,
`gamePaused`, `gameInterval`, `currentPiece`, `nextPiece` and the touch
coordinates) is one record, `State`; every function of the script that reads or
writes the globals is a function on `State`.

Conventions of the embedding:

* A function returns `Option`: `none` stands for a run that does not complete
  inside the data model, that is a `TypeError` (a property read on `null` or
  `undefined`), a write outside a row of the board, or an exhausted loop budget.
* `Math.random` is an input: each call of `createPiece` receives the index
  `Math.floor(Math.random() * TETROMINOS.length)` as a `Fin 7`.
* The browser's interval timers are the list `timers` of armed registrations;
  `setInterval` arms a fresh identifier, `clearInterval` disarms one.
* A colour string `'#rrggbb'` is the number `0xrrggbb`.
* The global `score` is a JavaScript number, an IEEE 754 double: it is a `Num`, a
  non-negative integer or `Infinity`, and `score += n` rounds the exact sum to
  the nearest double, ties to the even significand (`Num.add`). The counters
  `rowsCleared` and `rowsCleared * 10` stay far below `2^53` and are exact.
* Drawing (`drawBlock`, `drawBoard`, `drawPiece`, `updateNextPieceDisplay`),
  `alert` and the text of the buttons do not write the engine state and are
  left out.
-/

namespace Tetris

/-! ## Data model -/

/-- Colour string `'#rrggbb'`, as the number `0xrrggbb`. -/
abbrev Color := Nat

/-- Content of a board cell: the number `0`, or the colour of a locked piece. -/
inductive Cell where
  | zero
  | color (c : Color)
  deriving DecidableEq, Repr

/-- Value read from a shape matrix: a number, or `undefined` (a read past the
end of a row). -/
inductive Val where
  | num (n : Nat)
  | undefined
  deriving DecidableEq, Repr

instance : OfNat Val n := ⟨Val.num n⟩

/-- JavaScript test `v !== 0`. -/
def Val.neZero (v : Val) : Bool := v != Val.num 0

/-- JavaScript truthiness, `if (v)`. -/
def Val.truthy : Val → Bool
  | Val.num n => n != 0
  | Val.undefined => false

/-- JavaScript test `cell !== 0`. -/
def Cell.neZero (c : Cell) : Bool := c != Cell.zero

abbrev Shape := List (List Val)
abbrev Board := List (List Cell)

def COLUMNS : Nat := 10
def ROWS : Nat := 20

/-- Content of the global `score`, a JavaScript number: a non-negative integer
(one that a double represents exactly, in every state the script reaches) or
`Infinity`. -/
inductive Num where
  | fin (n : Nat)
  | infinity
  deriving DecidableEq, Repr

instance : OfNat Num n := ⟨Num.fin n⟩

/-- Search for the spacing of the doubles around `n`: the first of `u`, `2 * u`,
`4 * u`, ... below which `n / 2^53` lies. -/
def ulpAux : Nat → Nat → Nat → Nat
  | 0, u, _ => u
  | fuel + 1, u, n => if n < 2 ^ 53 * u then u else ulpAux fuel (2 * u) n

/-- Spacing of the doubles around the integer `n`: `1` below `2^53`, `2` from
`2^53` to `2^54`, and so on, up to `2^971`, the spacing of the largest doubles. -/
def ulp (n : Nat) : Nat := ulpAux 971 1 n

/-- The multiple of `u` nearest to `m`; of two nearest ones, the even multiple. -/
def roundNearest (u m : Nat) : Nat :=
  let q := m / u
  let r := m % u
  if 2 * r < u then q * u
  else if u < 2 * r then (q + 1) * u
  else if q % 2 = 0 then q * u
  else (q + 1) * u

/-- The double nearest to the integer `m` (round to nearest, ties to even):
`Infinity` from `2^1024 - 2^970` on, the rounding threshold above the largest
double `2^1024 - 2^971`. -/
def Num.ofInteger (m : Nat) : Num :=
  if 2 ^ 1024 - 2 ^ 970 ≤ m then Num.infinity else Num.fin (roundNearest (ulp m) m)

/-- Script `score + n` for a non-negative integer `n`: the double nearest to the
exact sum. -/
def Num.add (x : Num) (n : Nat) : Num :=
  match x with
  | Num.fin a => Num.ofInteger (a + n)
  | Num.infinity => Num.infinity

structure Tetromino where
  shape : Shape
  color : Color
  deriving DecidableEq, Repr

structure Piece where
  shape : Shape
  color : Color
  x : Int
  y : Int
  deriving DecidableEq, Repr

/-- The constant table `TETROMINOS` (I, O, T, S, Z, J, L). -/
def TETROMINOS : List Tetromino :=
  [ { shape := [[1, 1, 1, 1]], color := 0x00ffff },
    { shape := [[1, 1], [1, 1]], color := 0xffff00 },
    { shape := [[0, 1, 0], [1, 1, 1]], color := 0x800080 },
    { shape := [[1, 1, 0], [0, 1, 1]], color := 0x00ff00 },
    { shape := [[0, 1, 1], [1, 1, 0]], color := 0xff0000 },
    { shape := [[1, 0, 0], [1, 1, 1]], color := 0xffa500 },
    { shape := [[0, 0, 1], [1, 1, 1]], color := 0x0000ff } ]

/-- The globals of the script, with the armed interval registrations of the
browser (`timers`) and the next fresh timer identifier (`nextId`). -/
structure State where
  board : Board
  score : Num
  gameOver : Bool
  gamePaused : Bool
  gameInterval : Option Nat
  currentPiece : Option Piece
  nextPiece : Option Piece
  touchStartX : Int
  touchStartY : Int
  touchEndX : Int
  touchEndY : Int
  timers : List Nat
  nextId : Nat
  deriving DecidableEq, Repr

/-- Script `Array(COLUMNS).fill(0)`. -/
def emptyRow : List Cell := List.replicate COLUMNS Cell.zero

/-- The state after the script has loaded. -/
def init : State :=
  { board := List.replicate ROWS emptyRow
    score := 0
    gameOver := true
    gamePaused := false
    gameInterval := none
    currentPiece := none
    nextPiece := none
    touchStartX := 0
    touchStartY := 0
    touchEndX := 0
    touchEndY := 0
    timers := []
    nextId := 1 }

/-! ## checkCollision -/

/-- Body of the inner loop of `checkCollision` at shape cell `(row, col)` holding
`v`: `some true` when the function returns `true` there, `some false` when the
loop goes on, `none` when `board[boardY]` is `undefined`. -/
def checkCell (board : Board) (piece : Piece) (newX newY : Int) (row col : Nat)
    (v : Val) : Option Bool :=
  if v.neZero then
    let boardX : Int := piece.x + col + newX
    let boardY : Int := piece.y + row + newY
    if boardX < 0 ∨ boardX ≥ COLUMNS ∨ boardY ≥ ROWS then some true
    else if boardY < 0 then some false
    else
      match board[boardY.toNat]? with
      | none => none
      | some cells =>
        match cells[boardX.toNat]? with
        | none => some true
        | some cell => some cell.neZero
  else some false

/-- Inner loop `for (col ...)` over the rest of a shape row, from column `col`. -/
def checkCols (board : Board) (piece : Piece) (newX newY : Int) (row : Nat) :
    Nat → List Val → Option Bool
  | _, [] => some false
  | col, v :: vs =>
    match checkCell board piece newX newY row col v with
    | none => none
    | some true => some true
    | some false => checkCols board piece newX newY row (col + 1) vs

/-- Outer loop `for (row ...)` over the rest of the shape, from row `row`. -/
def checkRows (board : Board) (piece : Piece) (newX newY : Int) :
    Nat → List (List Val) → Option Bool
  | _, [] => some false
  | row, cells :: rest =>
    match checkCols board piece newX newY row 0 cells with
    | none => none
    | some true => some true
    | some false => checkRows board piece newX newY (row + 1) rest

/-- Script `checkCollision(piece, newX, newY, newShape)`; `newShape = none` is the call
with three arguments. -/
def checkCollision (board : Board) (piece : Piece) (newX newY : Int)
    (newShape : Option Shape) : Option Bool :=
  let shape := newShape.getD piece.shape
  checkRows board piece newX newY 0 shape

/-! ## clearRows -/

/-- Script `board[row].every(cell => cell !== 0)`. -/
def rowFull (cells : List Cell) : Bool := cells.all Cell.neZero

/-- The `for` loop of `clearRows`, `row` being the loop variable and `fuel` a
bound on the number of executions of the loop body. A full row is removed
(`splice`), an empty row is put on top (`unshift`) and, after `row++` and the
loop's `row--`, the same index is examined again. -/
def clearRowsLoop : Nat → Board → Int → Nat → Option (Board × Nat)
  | fuel, board, row, rowsCleared =>
    if row < 0 then some (board, rowsCleared)
    else
      match fuel with
      | 0 => none
      | fuel + 1 =>
        match board[row.toNat]? with
        | none => none
        | some cells =>
          if rowFull cells then
            clearRowsLoop fuel (emptyRow :: board.eraseIdx row.toNat) row (rowsCleared + 1)
          else
            clearRowsLoop fuel board (row - 1) rowsCleared

/-- Script `clearRows()`. The loop budget `2 * ROWS` is never exhausted on a board of
`ROWS` rows (`clearRowsLoop_spec`, `clearRows_spec`). -/
def clearRows (s : State) : Option State :=
  match clearRowsLoop (2 * ROWS) s.board ((ROWS : Int) - 1) 0 with
  | none => none
  | some (board, rowsCleared) =>
    if rowsCleared > 0 then
      some { s with board := board, score := s.score.add (rowsCleared * 10) }
    else
      some { s with board := board }

/-! ## Pieces -/

/-- The expression `newShape` of `rotatePiece`:
`shape[0].map((_, colIndex) => shape.map(row => row[colIndex]).reverse())`. -/
def rotateShape (shape : Shape) : Option Shape :=
  match shape[0]? with
  | none => none
  | some first =>
    some ((List.range first.length).map fun colIndex =>
      (shape.map fun cells => cells.getD colIndex Val.undefined).reverse)

/-- Script `createPiece()`, `randomIndex` being the value drawn from `Math.random`. -/
def createPiece (randomIndex : Fin 7) : Option Piece :=
  match TETROMINOS[randomIndex.val]? with
  | none => none
  | some piece =>
    match piece.shape[0]? with
    | none => none
    | some first =>
      some { shape := piece.shape
             color := piece.color
             x := (COLUMNS / 2 : Nat) - (first.length / 2 : Nat)
             y := 0 }

/-- Script `clearInterval(gameInterval)`. -/
def clearInterval (s : State) : State :=
  match s.gameInterval with
  | none => s
  | some id => { s with timers := s.timers.filter (· != id) }

/-- Script `gameInterval = setInterval(gameLoop, SPEED)`. -/
def setInterval (s : State) : State :=
  { s with gameInterval := some s.nextId, timers := s.nextId :: s.timers,
           nextId := s.nextId + 1 }

/-- Script `endGame()`. -/
def endGame (s : State) : State :=
  clearInterval { s with gameOver := true }

/-- Script `spawnNewPiece()`; `r1` is drawn only when `nextPiece` is `null`. -/
def spawnNewPiece (s : State) (r1 r2 : Fin 7) : Option State := do
  let current ← (s.nextPiece <|> createPiece r1)
  let next ← createPiece r2
  let s1 := { s with currentPiece := some current, nextPiece := some next }
  let hit ← checkCollision s1.board current 0 0 none
  if hit then some (endGame s1) else some s1

/-- Script `board[boardY][boardX] = color`. -/
def setCell (board : Board) (boardY boardX : Int) (color : Color) : Option Board :=
  if boardY < 0 then none
  else
    match board[boardY.toNat]? with
    | none => none
    | some cells =>
      if boardX < 0 ∨ boardX ≥ cells.length then none
      else some (board.set boardY.toNat (cells.set boardX.toNat (Cell.color color)))

/-- Inner `forEach` of `lockPiece` over the rest of a shape row. -/
def lockCols (piece : Piece) (rowIndex : Nat) : Nat → List Val → Board → Option Board
  | _, [], board => some board
  | colIndex, value :: rest, board =>
    if value.truthy then
      match setCell board (piece.y + rowIndex) (piece.x + colIndex) piece.color with
      | none => none
      | some board1 => lockCols piece rowIndex (colIndex + 1) rest board1
    else lockCols piece rowIndex (colIndex + 1) rest board

/-- Outer `forEach` of `lockPiece` over the rest of the shape. -/
def lockRows (piece : Piece) : Nat → List (List Val) → Board → Option Board
  | _, [], board => some board
  | rowIndex, cells :: rest, board =>
    match lockCols piece rowIndex 0 cells board with
    | none => none
    | some board1 => lockRows piece (rowIndex + 1) rest board1

/-- The two nested `forEach` of `lockPiece`: the board with the piece written. -/
def writePiece (board : Board) (piece : Piece) : Option Board :=
  lockRows piece 0 piece.shape board

/-- Script `lockPiece()`. -/
def lockPiece (s : State) (r1 r2 : Fin 7) : Option State := do
  let piece ← s.currentPiece
  let board ← writePiece s.board piece
  let s1 ← clearRows { s with board := board }
  spawnNewPiece s1 r1 r2

/-- Script `currentPiece.x += dx; currentPiece.y += dy` guarded by
`!checkCollision(currentPiece, dx, dy)`: the body shared by the arrow keys, the
buttons and the swipes. -/
def tryMove (s : State) (dx dy : Int) : Option State := do
  let piece ← s.currentPiece
  let hit ← checkCollision s.board piece dx dy none
  if !hit then
    some { s with currentPiece := some { piece with x := piece.x + dx, y := piece.y + dy } }
  else some s

/-- Script `rotatePiece()`. -/
def rotatePiece (s : State) : Option State :=
  if s.gameOver || s.gamePaused then some s
  else do
    let piece ← s.currentPiece
    let newShape ← rotateShape piece.shape
    let hit ← checkCollision s.board piece 0 0 (some newShape)
    if !hit then some { s with currentPiece := some { piece with shape := newShape } }
    else some s

/-- Script `gameLoop()`. -/
def gameLoop (s : State) (r1 r2 : Fin 7) : Option State :=
  if s.gameOver || s.gamePaused then some s
  else do
    let piece ← s.currentPiece
    let hit ← checkCollision s.board piece 0 1 none
    if !hit then some { s with currentPiece := some { piece with y := piece.y + 1 } }
    else lockPiece s r1 r2

/-! ## Game control -/

/-- Script `startGame()`. -/
def startGame (s : State) (r1 r2 : Fin 7) : Option State :=
  if !s.gameOver then some s
  else do
    let s1 := { s with gameOver := false, score := 0,
                       board := s.board.map fun cells => cells.map fun _ => Cell.zero }
    let s2 ← spawnNewPiece s1 r1 r2
    some (setInterval s2)

/-- Script `pauseGame()`. -/
def pauseGame (s : State) : State :=
  if s.gameOver then s
  else if s.gamePaused then setInterval { s with gamePaused := false }
  else clearInterval { s with gamePaused := true }

/-- Script `restartGame()`. -/
def restartGame (s : State) (r1 r2 : Fin 7) : Option State :=
  startGame (clearInterval s) r1 r2

/-! ## Event listeners -/

inductive Key where
  | ArrowUp
  | ArrowDown
  | ArrowLeft
  | ArrowRight
  | other
  deriving DecidableEq, Repr

/-- The `keydown` listener. -/
def keydown (s : State) (key : Key) : Option State :=
  if s.gameOver || s.gamePaused then some s
  else
    match key with
    | Key.ArrowUp => rotatePiece s
    | Key.ArrowDown => tryMove s 0 1
    | Key.ArrowLeft => tryMove s (-1) 0
    | Key.ArrowRight => tryMove s 1 0
    | Key.other => some s

/-- The `click` listener of `leftBtn`. -/
def leftBtnClick (s : State) : Option State :=
  if !s.gameOver && !s.gamePaused then tryMove s (-1) 0 else some s

/-- The `click` listener of `rightBtn`. -/
def rightBtnClick (s : State) : Option State :=
  if !s.gameOver && !s.gamePaused then tryMove s 1 0 else some s

/-- The `click` listener of `downBtn`. -/
def downBtnClick (s : State) : Option State :=
  if !s.gameOver && !s.gamePaused then tryMove s 0 1 else some s

/-- The `touchstart` listener. -/
def touchstart (s : State) (clientX clientY : Int) : State :=
  if s.gameOver || s.gamePaused then s
  else { s with touchStartX := clientX, touchStartY := clientY }

/-- Script `handleSwipe()`. -/
def handleSwipe (s : State) : Option State :=
  let dx := s.touchEndX - s.touchStartX
  let dy := s.touchEndY - s.touchStartY
  let absDx := |dx|
  let absDy := |dy|
  if absDx > absDy then
    if dx > 0 then tryMove s 1 0 else tryMove s (-1) 0
  else
    if dy > 0 then tryMove s 0 1 else rotatePiece s

/-- The `touchend` listener. -/
def touchend (s : State) (clientX clientY : Int) : Option State :=
  if s.gameOver || s.gamePaused then some s
  else handleSwipe { s with touchEndX := clientX, touchEndY := clientY }

/-! ## Transition system -/

inductive Event where
  | startClick (r1 r2 : Fin 7)
  | pauseClick
  | restartClick (r1 r2 : Fin 7)
  | tick (r1 r2 : Fin 7)
  | keydown (key : Key)
  | leftClick
  | rightClick
  | rotateClick
  | downClick
  | touchstart (clientX clientY : Int)
  | touchend (clientX clientY : Int)
  deriving DecidableEq, Repr

/-- An interval callback runs only while a registration is armed; the listeners
can run at any time. -/
def enabled (s : State) : Event → Bool
  | Event.tick _ _ => !s.timers.isEmpty
  | _ => true

/-- The handler run by an event. -/
def step (s : State) : Event → Option State
  | Event.startClick r1 r2 => startGame s r1 r2
  | Event.pauseClick => some (pauseGame s)
  | Event.restartClick r1 r2 => restartGame s r1 r2
  | Event.tick r1 r2 => gameLoop s r1 r2
  | Event.keydown key => keydown s key
  | Event.leftClick => leftBtnClick s
  | Event.rightClick => rightBtnClick s
  | Event.rotateClick => rotatePiece s
  | Event.downClick => downBtnClick s
  | Event.touchstart x y => some (touchstart s x y)
  | Event.touchend x y => touchend s x y

/-- Run a sequence of events; `none` when an event is not enabled or its handler
does not complete. -/
def run : State → List Event → Option State
  | s, [] => some s
  | s, e :: es =>
    if enabled s e then
      match step s e with
      | none => none
      | some s1 => run s1 es
    else none

/-- States the script can be in: the initial state, closed under the handlers of
enabled events. -/
inductive Reachable : State → Prop where
  | init : Reachable init
  | step {s s1 : State} (e : Event) : Reachable s → enabled s e = true →
      step s e = some s1 → Reachable s1

/-! ## Predicates used in the statements -/

/-- A board of the fixed size: `ROWS` rows of `COLUMNS` cells each. -/
def WFBoard (board : Board) : Prop :=
  board.length = ROWS ∧ ∀ cells ∈ board, cells.length = COLUMNS

instance (board : Board) : Decidable (WFBoard board) := by
  unfold WFBoard; infer_instance

/-- The board after `clearRows`, as the specification describes it: one empty row
for each full row, then the rows that are not full, in their order. -/
def clearedBoard (board : Board) : Board :=
  List.replicate (board.countP rowFull) (List.replicate COLUMNS Cell.zero) ++
    board.filter fun cells => !rowFull cells

/-- A board whose rows 14, 15, 16 (adjacent) and 18 are full and whose rows 17
and 19 hold one empty cell each. -/
def sampleBoard : Board :=
  List.replicate 14 emptyRow ++
    [ List.replicate 10 (Cell.color 1),
      List.replicate 10 (Cell.color 2),
      List.replicate 10 (Cell.color 3),
      Cell.zero :: List.replicate 9 (Cell.color 4),
      List.replicate 10 (Cell.color 5),
      List.replicate 9 (Cell.color 6) ++ [Cell.zero] ]

/-- Entry `shape[r][c]` of a shape matrix, `none` outside the matrix. -/
def entryAt (shape : Shape) (r c : Nat) : Option Val :=
  (shape[r]?).bind fun cells => cells[c]?

/-- Cell `board[r][c]`, `none` outside the board. -/
def cellAt (board : Board) (r c : Int) : Option Cell :=
  if 0 ≤ r ∧ 0 ≤ c then (board[r.toNat]?).bind fun cells => cells[c.toNat]? else none

/-- Cell `(r, c)` of the shape is occupied: `shape[r][c] !== 0`, the test of
`checkCollision`. -/
def Occupied (shape : Shape) (r c : Nat) : Prop :=
  ∃ v, entryAt shape r c = some v ∧ v ≠ Val.num 0

/-- Board position `(boardY, boardX)` stops a piece cell: the column is outside
`[0, COLUMNS)`, or the row is `ROWS` or more, or the row is in `[0, ROWS)` and the
board cell there is not empty. -/
def Blocked (board : Board) (boardX boardY : Int) : Prop :=
  (boardX < 0 ∨ (COLUMNS : Int) ≤ boardX) ∨ (ROWS : Int) ≤ boardY ∨
    (0 ≤ boardY ∧ boardY < ROWS ∧ ∃ cell, cellAt board boardY boardX = some cell ∧ cell ≠ Cell.zero)

/-- Some occupied cell of `shape`, placed at the position of `piece` moved by
`(dx, dy)`, is stopped. -/
def Collides (board : Board) (piece : Piece) (dx dy : Int) (shape : Shape) : Prop :=
  ∃ r c, Occupied shape r c ∧ Blocked board (piece.x + c + dx) (piece.y + r + dy)

/-- Cell `(r, c)` of the shape is written by `lockPiece`: `shape[r][c]` is truthy. -/
def Filled (shape : Shape) (r c : Nat) : Prop :=
  ∃ v, entryAt shape r c = some v ∧ v.truthy = true

/-- A rectangular shape with at least one row and one column, every entry `0` or `1`. -/
def GoodShape (shape : Shape) : Prop :=
  0 < shape.length ∧ 0 < (shape.headD []).length ∧
    (∀ cells ∈ shape, cells.length = (shape.headD []).length) ∧
    ∀ cells ∈ shape, ∀ v ∈ cells, v = Val.num 0 ∨ v = Val.num 1

instance (shape : Shape) : Decidable (GoodShape shape) := by
  unfold GoodShape; infer_instance

/-- Invariant of the reachable states. -/
structure Inv (s : State) : Prop where
  board_wf : WFBoard s.board
  not_both : s.gameOver = true → s.gamePaused = false
  next_fresh : ∀ q, s.nextPiece = some q → ∃ i, createPiece i = some q
  active : s.gameOver = false → ∃ p q, s.currentPiece = some p ∧ s.nextPiece = some q ∧
    GoodShape p.shape ∧ 0 ≤ p.y ∧ checkCollision s.board p 0 0 none = some false
  timers_one : s.timers = [] ∨ (s.gameOver = false ∧ s.gamePaused = false ∧
    ∃ id, s.gameInterval = some id ∧ s.timers = [id])

/-- The all-empty board produced by `board.forEach(row => row.fill(0))`. -/
def emptyBoard : Board := List.replicate ROWS emptyRow


/-- The score `clearRows` leaves after clearing `rowsCleared` rows:
`if (rowsCleared > 0) score += rowsCleared * 10`. -/
def scoreAfter (score : Num) (rowsCleared : Nat) : Num :=
  if rowsCleared > 0 then score.add (rowsCleared * 10) else score

/-- The state `lockPiece` leaves when the spawned piece does not collide: `b` is
the board with the piece written, `q` the piece taken from the buffer and `nxt`
the piece drawn for the buffer. -/
def lockedState (s : State) (b : Board) (q nxt : Piece) : State :=
  { s with board := clearedBoard b, score := scoreAfter s.score (b.countP rowFull),
           currentPiece := some q, nextPiece := some nxt }

/-- The state a committed move leaves. -/
def movedState (s : State) (p : Piece) (dx dy : Int) : State :=
  { s with currentPiece := some { p with x := p.x + dx, y := p.y + dy } }

/-- The state `startGame` leaves when it starts a game with the pieces `cur` (active)
and `nxt` (buffer). -/
def startedState (s : State) (cur nxt : Piece) : State :=
  setInterval { s with gameOver := false, score := 0, board := emptyBoard,
                       currentPiece := some cur, nextPiece := some nxt }

/-- The initial state with `sampleBoard` as its board. -/
def sampleState : State := { init with board := sampleBoard, score := 30 }

/-- The I piece above the top right corner: columns 7 to 10, row -1. -/
def samplePiece : Piece := { shape := [[1, 1, 1, 1]], color := 0x00ffff, x := 7, y := -1 }

/-- The shape of the T piece. -/
def shapeT : Shape := [[0, 1, 0], [1, 1, 1]]

/-- `n` ticks, each drawing the O piece for the buffer. -/
def tickN (n : Nat) : List Event := List.replicate n (Event.tick 1 1)

/-- A short game: a T piece is started, falls, is moved and turned. -/
def playEvents : List Event :=
  [Event.startClick 2 5, Event.tick 0 0, Event.leftClick, Event.keydown Key.ArrowUp,
   Event.tick 0 0, Event.keydown Key.ArrowRight, Event.downClick, Event.touchstart 10 10,
   Event.touchend 10 90]

/-- The state after `playEvents`. -/
def demoPlay : State := (run init playEvents).getD init

/-- The I piece is started and falls to the bottom row, where it is blocked. -/
def bottomEvents : List Event := [Event.startClick 0 3] ++ List.replicate 19 (Event.tick 4 4)

/-- The state after `bottomEvents`. -/
def demoBottom : State := (run init bottomEvents).getD init

/-- Five O pieces are dropped side by side; the fifth is left blocked on the
floor, before the tick that locks it and completes rows 18 and 19. -/
def twoRowsEvents : List Event :=
  [Event.startClick 1 1] ++
  List.replicate 4 Event.leftClick ++ tickN 19 ++
  List.replicate 2 (Event.keydown Key.ArrowLeft) ++ tickN 19 ++
  tickN 19 ++
  List.replicate 2 Event.rightClick ++ tickN 19 ++
  List.replicate 4 (Event.keydown Key.ArrowRight) ++ tickN 18

/-- The state after `twoRowsEvents`. -/
def demoTwoRows : State := (run init twoRowsEvents).getD init

/-- Ten O pieces are dropped on one another in columns 4 and 5; the tenth is left
blocked in rows 0 and 1, before the tick that locks it. -/
def towerEvents : List Event := [Event.startClick 1 1] ++ tickN 99

/-- The state after `towerEvents`. -/
def demoTower : State := (run init towerEvents).getD init

/-- After `twoRowsEvents` the fifth O piece is locked (two rows are cleared, 20
points) and a sixth O piece is dropped and locked on the floor. -/
def scoredEvents : List Event := twoRowsEvents ++ tickN 20

/-- The state after `scoredEvents`: a running game with 20 points and a board that
is not empty. -/
def demoScored : State := (run init scoredEvents).getD init

/-- The move commands of the keyboard and of the buttons, each with its offset. -/
def moveCommands : List (Event × Int × Int) :=
  [ (Event.keydown Key.ArrowLeft, -1, 0), (Event.leftClick, -1, 0),
    (Event.keydown Key.ArrowRight, 1, 0), (Event.rightClick, 1, 0),
    (Event.keydown Key.ArrowDown, 0, 1), (Event.downClick, 0, 1) ]

/-- The events of `playEvents` followed by a click on the pause button. -/
def pausedEvents : List Event := playEvents ++ [Event.pauseClick]

/-- The Paused state after `pausedEvents`. -/
def demoPaused : State := (run init pausedEvents).getD init

/-- The events that carry one of the four commands `rotate`, `moveLeft`,
`moveRight`, `softDrop`: the `keydown` listener, the four buttons and the two
touch listeners (a swipe is a `touchstart` followed by a `touchend`). -/
def isInput : Event → Bool
  | Event.keydown _ => true
  | Event.leftClick => true
  | Event.rightClick => true
  | Event.rotateClick => true
  | Event.downClick => true
  | Event.touchstart _ _ => true
  | Event.touchend _ _ => true
  | _ => false

/-- The two soft-drop events of keyboard and button. -/
def softDrops : List Event := [Event.keydown Key.ArrowDown, Event.downClick]

/-- The board whose bottom row holds the I colour in columns 3 to 6 and is empty
everywhere else. -/
def boardWithI : Board :=
  List.replicate 19 emptyRow ++
    [ List.replicate 3 Cell.zero ++ List.replicate 4 (Cell.color 0x00ffff) ++
        List.replicate 3 Cell.zero ]

/-- The state `s` with another score. -/
def withScore (x : Num) (s : State) : State := { s with score := x }

/-- Number of rows the `clearRows` call of a tick in state `s` clears; `0` when the
tick does not lock a piece. -/
def tickRows (s : State) : Nat :=
  if s.gameOver || s.gamePaused then 0
  else
    match s.currentPiece with
    | none => 0
    | some p =>
      match checkCollision s.board p 0 1 none with
      | some true =>
        match writePiece s.board p with
        | none => 0
        | some b =>
          match clearRowsLoop (2 * ROWS) b ((ROWS : Int) - 1) 0 with
          | none => 0
          | some (_, k) => k
      | _ => 0

/-- Number of rows the handler of event `e` clears in state `s`. -/
def stepRows (s : State) : Event → Nat
  | Event.tick _ _ => tickRows s
  | _ => 0

/-- The event is neither a click on start nor on restart (the two handlers that
reset the score). -/
def keepsGame : Event → Bool
  | Event.startClick _ _ => false
  | Event.restartClick _ _ => false
  | _ => true

/-- No event of the run `es` from `s` resets the score or clears a row. -/
def quiet : State → List Event → Bool
  | _, [] => true
  | s, e :: es =>
    keepsGame e && stepRows s e == 0 &&
      match step s e with
      | none => true
      | some s1 => quiet s1 es

/-- The Running state that a click on start leaves when both draws give the O
piece. -/
def cycleStart : State := (run init [Event.startClick 1 1]).getD init

/-- The events of `twoRowsEvents` after the click on start: five O pieces are
dropped side by side, the fifth left blocked on the floor. -/
def fiveDrops : List Event := twoRowsEvents.drop 1

/-- A score below `2^55 = 36028797018963968` to which 20 cannot be added exactly:
the doubles from `2^55` on are spaced by 8. -/
def bigScore : Nat := 36028797018963960

/-- The state `demoTwoRows` (fifth O piece blocked, its lock completes rows 18 and
19) with the score `bigScore`. -/
def bigScoreState : State := withScore (Num.fin bigScore) demoTwoRows

/-! ## Theorems -/

/-! ### The score as a JavaScript number -/

theorem ulpAux_succ (fuel u n : Nat) :
    ulpAux (fuel + 1) u n = if n < 2 ^ 53 * u then u else ulpAux fuel (2 * u) n := rfl

/-- Below `2^55` the doubles are spaced by 1, 2 or 4. -/
theorem ulp_small (m : Nat) (h : m < 2 ^ 55) :
    (ulp m = 1 ∧ m < 2 ^ 53) ∨ (ulp m = 2 ∧ m < 2 ^ 54) ∨ ulp m = 4 := by
  have e : ulp m = ulpAux (968 + 1 + 1 + 1) 1 m := rfl
  rw [e, ulpAux_succ, ulpAux_succ, ulpAux_succ]
  by_cases h1 : m < 2 ^ 53 * 1
  · rw [if_pos h1]
    exact Or.inl ⟨rfl, by omega⟩
  · rw [if_neg h1]
    by_cases h2 : m < 2 ^ 53 * (2 * 1)
    · rw [if_pos h2]
      exact Or.inr (Or.inl ⟨rfl, by omega⟩)
    · rw [if_neg h2, if_pos (by omega)]
      exact Or.inr (Or.inr rfl)

theorem roundNearest_of_dvd (u m : Nat) (hu : 0 < u) (h : m % u = 0) :
    roundNearest u m = m := by
  unfold roundNearest
  simp only [h, Nat.mul_zero]
  rw [if_pos hu]
  exact Nat.div_mul_cancel (Nat.dvd_of_mod_eq_zero h)

theorem ofInteger_of_lt (m : Nat) (h : m < 2 ^ 55) :
    Num.ofInteger m = Num.fin (roundNearest (ulp m) m) := by
  unfold Num.ofInteger
  rw [if_neg]
  have : (2 : Nat) ^ 55 ≤ 2 ^ 1024 - 2 ^ 970 := by norm_num
  omega

/-- An integer up to `2^53` is a double: the sum is exact. -/
theorem ofInteger_exact (m : Nat) (h : m ≤ 2 ^ 53) : Num.ofInteger m = Num.fin m := by
  rw [ofInteger_of_lt m (by omega)]
  rcases ulp_small m (by omega) with ⟨h1, _⟩ | ⟨h2, _⟩ | h4
  · rw [h1, roundNearest_of_dvd 1 m (by omega) (Nat.mod_one m)]
  · have hm : m = 2 ^ 53 ∨ m < 2 ^ 53 := by omega
    rcases hm with hm | hm
    · rw [h2, roundNearest_of_dvd 2 m (by omega) (by rw [hm]; norm_num)]
    · exfalso
      have e : ulp m = ulpAux (970 + 1) 1 m := rfl
      rw [e, ulpAux_succ, if_pos (by omega)] at h2
      omega
  · exfalso
    have e : ulp m = ulpAux (969 + 1 + 1) 1 m := rfl
    rw [e, ulpAux_succ, ulpAux_succ] at h4
    by_cases h1 : m < 2 ^ 53 * 1
    · rw [if_pos h1] at h4
      omega
    · rw [if_neg h1, if_pos (by omega)] at h4
      omega

/-- A multiple of 4 below `2^55` is a double: the sum is exact. -/
theorem ofInteger_exact_four (m : Nat) (h : m < 2 ^ 55) (h4 : m % 4 = 0) :
    Num.ofInteger m = Num.fin m := by
  rw [ofInteger_of_lt m h]
  rcases ulp_small m h with ⟨h1, _⟩ | ⟨h2, _⟩ | h3
  · rw [h1, roundNearest_of_dvd 1 m (by omega) (Nat.mod_one m)]
  · rw [h2, roundNearest_of_dvd 2 m (by omega) (by omega)]
  · rw [h3, roundNearest_of_dvd 4 m (by omega) h4]

theorem scoreAfter_zero (x : Num) : scoreAfter x 0 = x := rfl

theorem scoreAfter_exact (n k : Nat) (h : n + 10 * k ≤ 2 ^ 53) :
    scoreAfter (Num.fin n) k = Num.fin (n + 10 * k) := by
  unfold scoreAfter
  by_cases hk : k > 0
  · rw [if_pos hk]
    show Num.ofInteger (n + k * 10) = Num.fin (n + 10 * k)
    rw [Nat.mul_comm k 10]
    exact ofInteger_exact _ h
  · have : k = 0 := by omega
    subst this
    rfl

/-! ### clearRows -/

theorem emptyRow_not_full : rowFull emptyRow = false := by decide

theorem clearRowsLoop_zero_fuel (board : Board) (row : Int) (k : Nat) :
    clearRowsLoop 0 board row k = if row < 0 then some (board, k) else none := by
  unfold clearRowsLoop; rfl

theorem clearRowsLoop_neg (fuel : Nat) (board : Board) (row : Int) (k : Nat) (h : row < 0) :
    clearRowsLoop fuel board row k = some (board, k) := by
  unfold clearRowsLoop; simp [h]

theorem clearRowsLoop_succ (fuel : Nat) (board : Board) (row : Int) (k : Nat) (h : 0 ≤ row) :
    clearRowsLoop (fuel + 1) board row k =
      match board[row.toNat]? with
      | none => none
      | some cells =>
        if rowFull cells then
          clearRowsLoop fuel (emptyRow :: board.eraseIdx row.toNat) row (k + 1)
        else clearRowsLoop fuel board (row - 1) k := by
  rw [clearRowsLoop]; simp [not_lt.mpr h]

theorem eraseIdx_middle (top bottom : Board) (last : List Cell) :
    (top ++ last :: bottom).eraseIdx top.length = top ++ bottom := by
  induction top with
  | nil => rfl
  | cons a t ih => simpa using ih

theorem getElem?_middle (top bottom : Board) (last : List Cell) :
    (top ++ last :: bottom)[top.length]? = some last := by
  induction top with
  | nil => simp
  | cons a t ih => simpa using ih

/-- Loop invariant of `clearRows`: scanning upward from the last row of `top`,
with `bottom` already scanned, the loop ends (given `fuel` for one pass over each
row of `top` and one more per full row) with the full rows of `top` replaced by
empty rows on top. -/
theorem clearRowsLoop_spec (fuel : Nat) : ∀ (top bottom : Board) (k : Nat),
    top.length + top.countP rowFull ≤ fuel →
    clearRowsLoop fuel (top ++ bottom) ((top.length : Int) - 1) k =
      some (List.replicate (top.countP rowFull) emptyRow ++
              (top.filter fun cells => !rowFull cells) ++ bottom,
            k + top.countP rowFull) := by
  induction fuel with
  | zero =>
    intro top bottom k h
    have h0 : top = [] := List.length_eq_zero.mp (by omega)
    subst h0
    simp [clearRowsLoop_zero_fuel]
  | succ fuel ih =>
    intro top bottom k h
    rcases List.eq_nil_or_concat top with h0 | ⟨front, last, h0⟩
    · subst h0
      simp [clearRowsLoop_neg]
    · rw [List.concat_eq_append] at h0
      subst h0
      have hrow : ((front ++ [last]).length : Int) - 1 = (front.length : Int) := by
        simp
      rw [hrow, clearRowsLoop_succ _ _ _ _ (by omega)]
      have hget : (front ++ [last] ++ bottom)[(front.length : Int).toNat]? = some last := by
        simpa using getElem?_middle front bottom last
      rw [hget]
      simp only
      by_cases hf : rowFull last = true
      · rw [if_pos hf]
        have her : (front ++ [last] ++ bottom).eraseIdx (front.length : Int).toNat
            = front ++ bottom := by
          simpa using eraseIdx_middle front bottom last
        rw [her]
        have hlen : (front.length : Int) = (((emptyRow :: front).length : Nat) : Int) - 1 := by
          simp
        have := ih (emptyRow :: front) bottom (k + 1) (by
          simp [List.countP_cons, emptyRow_not_full, hf] at h ⊢
          omega)
        rw [hlen]
        rw [show emptyRow :: (front ++ bottom) = (emptyRow :: front) ++ bottom by rfl, this]
        simp [List.countP_cons, emptyRow_not_full, hf, List.filter_cons, List.replicate_succ']
        omega
      · rw [if_neg hf]
        have := ih front ([last] ++ bottom) k (by
          simp [List.countP_cons, hf] at h ⊢
          omega)
        simp only [List.append_assoc] at this ⊢
        rw [this]
        simp [List.countP_cons, hf, List.filter_cons]

theorem length_filter_not_full (board : Board) :
    (board.filter fun cells => !rowFull cells).length + board.countP rowFull = board.length := by
  induction board with
  | nil => rfl
  | cons a t ih =>
    by_cases hf : rowFull a = true
    · simp [List.filter_cons, List.countP_cons, hf]; omega
    · simp [List.filter_cons, List.countP_cons, hf]; omega

theorem clearedBoard_wf (board : Board) (h : WFBoard board) : WFBoard (clearedBoard board) := by
  obtain ⟨hlen, hrows⟩ := h
  refine ⟨?_, ?_⟩
  · have := length_filter_not_full board
    simp only [clearedBoard, List.length_append, List.length_replicate]
    omega
  · intro cells hc
    simp only [clearedBoard, List.mem_append, List.mem_replicate, List.mem_filter] at hc
    rcases hc with ⟨_, rfl⟩ | ⟨hm, _⟩
    · simp
    · exact hrows cells hm

/-- On a board of `ROWS` rows `clearRows` completes, leaves `clearedBoard` and
adds 10 points per full row. -/
theorem clearRows_spec (s : State) (h : s.board.length = ROWS) :
    clearRows s = some { s with board := clearedBoard s.board,
                                score := scoreAfter s.score (s.board.countP rowFull) } := by
  have hk : s.board.countP rowFull ≤ s.board.length := List.countP_le_length _
  have hloop := clearRowsLoop_spec (2 * ROWS) s.board [] 0 (by omega)
  simp only [List.append_nil, h, Nat.zero_add] at hloop
  unfold clearRows
  rw [hloop]
  simp only [clearedBoard, emptyRow, scoreAfter]
  split <;> rfl

/-! ### checkCollision -/

theorem val_neZero_iff (v : Val) : v.neZero = true ↔ v ≠ Val.num 0 := by
  simp [Val.neZero]

theorem cell_neZero_iff (c : Cell) : c.neZero = true ↔ c ≠ Cell.zero := by
  simp [Cell.neZero]

theorem cellAt_of_wf (board : Board) (h : WFBoard board) (r c : Int)
    (hr : 0 ≤ r) (hr2 : r < ROWS) (hc : 0 ≤ c) (hc2 : c < COLUMNS) :
    ∃ cells cell, board[r.toNat]? = some cells ∧ cells[c.toNat]? = some cell ∧
      cellAt board r c = some cell := by
  obtain ⟨hlen, hrows⟩ := h
  have h1 : r.toNat < board.length := by omega
  have h2 : (board[r.toNat]).length = COLUMNS := hrows _ (List.getElem_mem _)
  have h3 : c.toNat < (board[r.toNat]).length := by omega
  refine ⟨board[r.toNat], (board[r.toNat])[c.toNat], List.getElem?_eq_getElem h1,
    List.getElem?_eq_getElem h3, ?_⟩
  simp [cellAt, hr, hc, List.getElem?_eq_getElem h1, List.getElem?_eq_getElem h3]

theorem checkCell_spec (board : Board) (h : WFBoard board) (piece : Piece) (dx dy : Int)
    (r c : Nat) (v : Val) :
    ∃ b, checkCell board piece dx dy r c v = some b ∧
      (b = true ↔ v ≠ Val.num 0 ∧ Blocked board (piece.x + c + dx) (piece.y + r + dy)) := by
  unfold checkCell
  by_cases hv : v.neZero = true
  · have hv' := (val_neZero_iff v).mp hv
    simp only [hv, if_true]
    by_cases hb : piece.x + c + dx < 0 ∨ piece.x + c + dx ≥ COLUMNS ∨ piece.y + r + dy ≥ ROWS
    · refine ⟨true, by simp only [if_pos hb], ?_⟩
      simp only [true_iff]
      refine ⟨hv', ?_⟩
      unfold Blocked
      rcases hb with hb | hb | hb
      · exact Or.inl (Or.inl hb)
      · exact Or.inl (Or.inr hb)
      · exact Or.inr (Or.inl hb)
    · simp only [if_neg hb]
      have hx1 : 0 ≤ piece.x + c + dx := by
        by_contra hc; exact hb (Or.inl (by omega))
      have hx2 : piece.x + c + dx < COLUMNS := by
        by_contra hc; exact hb (Or.inr (Or.inl (by omega)))
      have hy2 : piece.y + r + dy < ROWS := by
        by_contra hc; exact hb (Or.inr (Or.inr (by omega)))
      by_cases hy : piece.y + r + dy < 0
      · refine ⟨false, by simp only [if_pos hy], ?_⟩
        simp only [Bool.false_eq_true, false_iff, not_and]
        intro _
        unfold Blocked
        omega
      · simp only [if_neg hy]
        obtain ⟨cells, cell, h1, h2, h3⟩ :=
          cellAt_of_wf board h (piece.y + r + dy) (piece.x + c + dx) (by omega) hy2 hx1 hx2
        refine ⟨cell.neZero, by simp only [h1, h2], ?_⟩
        rw [cell_neZero_iff]
        unfold Blocked
        constructor
        · intro hne
          exact ⟨hv', Or.inr (Or.inr ⟨by omega, hy2, cell, h3, hne⟩)⟩
        · rintro ⟨_, (hb1 | hb1) | hb1 | ⟨_, _, cell2, hc2, hne⟩⟩
          · omega
          · omega
          · omega
          · rw [h3] at hc2
            cases hc2
            exact hne
  · refine ⟨false, by simp only [hv]; rfl, ?_⟩
    simp only [Bool.false_eq_true, false_iff, not_and]
    intro hv'
    exact absurd ((val_neZero_iff v).mpr hv') hv

theorem checkCols_spec (board : Board) (h : WFBoard board) (piece : Piece) (dx dy : Int)
    (r : Nat) : ∀ (vs : List Val) (col : Nat),
    ∃ b, checkCols board piece dx dy r col vs = some b ∧
      (b = true ↔ ∃ k v, vs[k]? = some v ∧ v ≠ Val.num 0 ∧
        Blocked board (piece.x + ((col + k : Nat) : Int) + dx) (piece.y + r + dy)) := by
  intro vs
  induction vs with
  | nil =>
    intro col
    exact ⟨false, rfl, by simp⟩
  | cons v vs ih =>
    intro col
    obtain ⟨b0, hb0, hiff0⟩ := checkCell_spec board h piece dx dy r col v
    obtain ⟨b1, hb1, hiff1⟩ := ih (col + 1)
    unfold checkCols
    rw [hb0]
    cases b0 with
    | true =>
      refine ⟨true, rfl, ?_⟩
      simp only [true_iff]
      obtain ⟨hv, hbl⟩ := hiff0.mp rfl
      exact ⟨0, v, by simp, hv, by simpa using hbl⟩
    | false =>
      refine ⟨b1, hb1, ?_⟩
      rw [hiff1]
      constructor
      · rintro ⟨k, w, hk, hw, hbl⟩
        refine ⟨k + 1, w, by simpa using hk, hw, ?_⟩
        have : col + 1 + k = col + (k + 1) := by omega
        rw [this] at hbl
        exact hbl
      · rintro ⟨k, w, hk, hw, hbl⟩
        cases k with
        | zero =>
          simp only [List.getElem?_cons_zero, Option.some.injEq] at hk
          subst hk
          have : false = true := hiff0.mpr ⟨hw, by simpa using hbl⟩
          cases this
        | succ k =>
          refine ⟨k, w, by simpa using hk, hw, ?_⟩
          have : col + 1 + k = col + (k + 1) := by omega
          rw [this]
          exact hbl

theorem checkRows_spec (board : Board) (h : WFBoard board) (piece : Piece) (dx dy : Int) :
    ∀ (shape : List (List Val)) (row : Nat),
    ∃ b, checkRows board piece dx dy row shape = some b ∧
      (b = true ↔ ∃ k c, Occupied shape k c ∧
        Blocked board (piece.x + c + dx) (piece.y + ((row + k : Nat) : Int) + dy)) := by
  intro shape
  induction shape with
  | nil =>
    intro row
    exact ⟨false, rfl, by simp [Occupied, entryAt]⟩
  | cons cells rest ih =>
    intro row
    obtain ⟨b0, hb0, hiff0⟩ := checkCols_spec board h piece dx dy row cells 0
    obtain ⟨b1, hb1, hiff1⟩ := ih (row + 1)
    unfold checkRows
    rw [hb0]
    cases b0 with
    | true =>
      refine ⟨true, rfl, ?_⟩
      simp only [true_iff]
      obtain ⟨c, v, hc, hv, hbl⟩ := hiff0.mp rfl
      refine ⟨0, c, ⟨v, by simpa [entryAt] using hc, hv⟩, ?_⟩
      simpa using hbl
    | false =>
      refine ⟨b1, hb1, ?_⟩
      rw [hiff1]
      constructor
      · rintro ⟨k, c, ⟨v, hv, hne⟩, hbl⟩
        refine ⟨k + 1, c, ⟨v, by simpa [entryAt] using hv, hne⟩, ?_⟩
        have : row + 1 + k = row + (k + 1) := by omega
        rw [this] at hbl
        exact hbl
      · rintro ⟨k, c, ⟨v, hv, hne⟩, hbl⟩
        cases k with
        | zero =>
          have : false = true := hiff0.mpr ⟨c, v, by simpa [entryAt] using hv, hne, by simpa using hbl⟩
          cases this
        | succ k =>
          refine ⟨k, c, ⟨v, by simpa [entryAt] using hv, hne⟩, ?_⟩
          have : row + 1 + k = row + (k + 1) := by omega
          rw [this]
          exact hbl

theorem checkCollision_spec (board : Board) (h : WFBoard board) (piece : Piece) (dx dy : Int)
    (newShape : Option Shape) :
    ∃ b, checkCollision board piece dx dy newShape = some b ∧
      (b = true ↔ Collides board piece dx dy (newShape.getD piece.shape)) := by
  obtain ⟨b, hb, hiff⟩ := checkRows_spec board h piece dx dy (newShape.getD piece.shape) 0
  refine ⟨b, hb, ?_⟩
  rw [hiff]
  unfold Collides
  simp

/-! ### rotateShape -/

theorem rotateShape_eq (shape : Shape) (first : List Val) (h : shape[0]? = some first) :
    rotateShape shape = some ((List.range first.length).map fun colIndex =>
      (shape.map fun cells => cells.getD colIndex Val.undefined).reverse) := by
  unfold rotateShape; rw [h]

theorem rotateShape_dims (shape : Shape) (H W : Nat) (hH : 0 < H) (hlen : shape.length = H)
    (hrect : ∀ cells ∈ shape, cells.length = W) :
    ∃ ns, rotateShape shape = some ns ∧ ns.length = W ∧ ∀ cells ∈ ns, cells.length = H := by
  have h0 : 0 < shape.length := by omega
  have hfirst : shape[0]? = some shape[0] := List.getElem?_eq_getElem h0
  have hW : (shape[0]).length = W := hrect _ (List.getElem_mem _)
  refine ⟨_, rotateShape_eq shape _ hfirst, ?_, ?_⟩
  · simp [hW]
  · intro cells hc
    simp only [List.mem_map, List.mem_range] at hc
    obtain ⟨c, _, rfl⟩ := hc
    simp [hlen]

/-! ### lockPiece: writing the piece -/

theorem setCell_spec (board : Board) (h : WFBoard board) (boardY boardX : Int) (color : Color)
    (hy : 0 ≤ boardY) (hy2 : boardY < ROWS) (hx : 0 ≤ boardX) (hx2 : boardX < COLUMNS) :
    ∃ b, setCell board boardY boardX color = some b ∧ WFBoard b ∧
      ∀ i j, cellAt b i j =
        if i = boardY ∧ j = boardX then some (Cell.color color) else cellAt board i j := by
  obtain ⟨cells, cell, h1, h2, _⟩ := cellAt_of_wf board h boardY boardX hy hy2 hx hx2
  obtain ⟨hlen, hrows⟩ := h
  have hn : boardY.toNat < board.length := by omega
  have hcells : cells.length = COLUMNS := hrows _ (List.getElem?_mem h1)
  have hm : boardX.toNat < cells.length := by omega
  refine ⟨board.set boardY.toNat (cells.set boardX.toNat (Cell.color color)), ?_, ⟨?_, ?_⟩, ?_⟩
  · unfold setCell
    rw [if_neg (by omega), h1]
    simp only
    rw [if_neg (by omega)]
  · simpa using hlen
  · intro row hrow
    rcases List.mem_or_eq_of_mem_set hrow with hin | heq
    · exact hrows _ hin
    · rw [heq]; simpa using hcells
  · intro i j
    unfold cellAt
    by_cases hij : 0 ≤ i ∧ 0 ≤ j
    · rw [if_pos hij, if_pos hij]
      by_cases hi : i = boardY
      · subst hi
        rw [List.getElem?_set_self hn]
        simp only [Option.some_bind, true_and]
        by_cases hj : j = boardX
        · subst hj
          rw [List.getElem?_set_self hm, if_pos rfl]
        · have : boardX.toNat ≠ j.toNat := by omega
          rw [List.getElem?_set_ne this, if_neg hj, h1]
          rfl
      · have : boardY.toNat ≠ i.toNat := by omega
        rw [List.getElem?_set_ne this, if_neg (fun hh => hi hh.1)]
    · rw [if_neg hij, if_neg hij, if_neg]
      rintro ⟨rfl, rfl⟩
      exact hij ⟨hy, hx⟩

theorem lockCols_spec (piece : Piece) (row : Nat) : ∀ (vs : List Val) (col : Nat) (board : Board),
    WFBoard board →
    (∀ k v, vs[k]? = some v → v.truthy = true →
      0 ≤ piece.y + row ∧ piece.y + row < ROWS ∧
      0 ≤ piece.x + ((col + k : Nat) : Int) ∧ piece.x + ((col + k : Nat) : Int) < COLUMNS) →
    ∃ b, lockCols piece row col vs board = some b ∧ WFBoard b ∧
      (∀ k v, vs[k]? = some v → v.truthy = true →
        cellAt b (piece.y + row) (piece.x + ((col + k : Nat) : Int)) = some (Cell.color piece.color)) ∧
      (∀ i j, (∀ k v, vs[k]? = some v → v.truthy = true →
          ¬(i = piece.y + row ∧ j = piece.x + ((col + k : Nat) : Int))) →
        cellAt b i j = cellAt board i j) := by
  intro vs
  induction vs with
  | nil =>
    intro col board hwf _
    exact ⟨board, rfl, hwf, by simp, fun _ _ _ => rfl⟩
  | cons v vs ih =>
    intro col board hwf hin
    have hin' : ∀ k w, vs[k]? = some w → w.truthy = true →
        0 ≤ piece.y + row ∧ piece.y + row < ROWS ∧
        0 ≤ piece.x + ((col + 1 + k : Nat) : Int) ∧
        piece.x + ((col + 1 + k : Nat) : Int) < COLUMNS := by
      intro k w hk hw
      have := hin (k + 1) w (by simpa using hk) hw
      have e : col + 1 + k = col + (k + 1) := by omega
      rw [e]; exact this
    unfold lockCols
    by_cases hv : v.truthy = true
    · obtain ⟨h1, h2, h3, h4⟩ := hin 0 v (by simp) hv
      simp only [Nat.add_zero] at h3 h4
      obtain ⟨b1, hb1, hwf1, hcell1⟩ :=
        setCell_spec board hwf (piece.y + row) (piece.x + col) piece.color h1 h2 h3 h4
      obtain ⟨b, hb, hwfb, hset, hkeep⟩ := ih (col + 1) b1 hwf1 hin'
      rw [if_pos hv, hb1]
      refine ⟨b, hb, hwfb, ?_, ?_⟩
      · intro k w hk hw
        cases k with
        | zero =>
          simp only [Nat.add_zero]
          rw [hkeep, hcell1, if_pos ⟨rfl, rfl⟩]
          intro k w _ _ hh
          have := hh.2
          omega
        | succ k =>
          have := hset k w (by simpa using hk) hw
          have e : col + 1 + k = col + (k + 1) := by omega
          rw [e] at this; exact this
      · intro i j hij
        rw [hkeep, hcell1, if_neg]
        · have := hij 0 v (by simp) hv
          simpa using this
        · intro k w hk hw
          have := hij (k + 1) w (by simpa using hk) hw
          have e : col + 1 + k = col + (k + 1) := by omega
          rw [e]; exact this
    · obtain ⟨b, hb, hwfb, hset, hkeep⟩ := ih (col + 1) board hwf hin'
      rw [if_neg hv]
      refine ⟨b, hb, hwfb, ?_, ?_⟩
      · intro k w hk hw
        cases k with
        | zero =>
          simp only [List.getElem?_cons_zero, Option.some.injEq] at hk
          subst hk
          exact absurd hw hv
        | succ k =>
          have := hset k w (by simpa using hk) hw
          have e : col + 1 + k = col + (k + 1) := by omega
          rw [e] at this; exact this
      · intro i j hij
        apply hkeep
        intro k w hk hw
        have := hij (k + 1) w (by simpa using hk) hw
        have e : col + 1 + k = col + (k + 1) := by omega
        rw [e]; exact this

theorem lockRows_spec (piece : Piece) : ∀ (shape : List (List Val)) (row : Nat) (board : Board),
    WFBoard board →
    (∀ k c, Filled shape k c →
      0 ≤ piece.y + ((row + k : Nat) : Int) ∧ piece.y + ((row + k : Nat) : Int) < ROWS ∧
      0 ≤ piece.x + (c : Int) ∧ piece.x + (c : Int) < COLUMNS) →
    ∃ b, lockRows piece row shape board = some b ∧ WFBoard b ∧
      (∀ k c, Filled shape k c →
        cellAt b (piece.y + ((row + k : Nat) : Int)) (piece.x + (c : Int))
          = some (Cell.color piece.color)) ∧
      (∀ i j, (∀ k c, Filled shape k c →
          ¬(i = piece.y + ((row + k : Nat) : Int) ∧ j = piece.x + (c : Int))) →
        cellAt b i j = cellAt board i j) := by
  intro shape
  induction shape with
  | nil =>
    intro row board hwf _
    refine ⟨board, rfl, hwf, ?_, fun _ _ _ => rfl⟩
    rintro k c ⟨v, hv, _⟩
    simp [entryAt] at hv
  | cons cells rest ih =>
    intro row board hwf hin
    have hin0 : ∀ k v, cells[k]? = some v → v.truthy = true →
        0 ≤ piece.y + row ∧ piece.y + row < ROWS ∧
        0 ≤ piece.x + ((0 + k : Nat) : Int) ∧ piece.x + ((0 + k : Nat) : Int) < COLUMNS := by
      intro k v hk hv
      have := hin 0 k ⟨v, by simpa [entryAt] using hk, hv⟩
      simpa using this
    have hin' : ∀ k c, Filled rest k c →
        0 ≤ piece.y + ((row + 1 + k : Nat) : Int) ∧ piece.y + ((row + 1 + k : Nat) : Int) < ROWS ∧
        0 ≤ piece.x + (c : Int) ∧ piece.x + (c : Int) < COLUMNS := by
      rintro k c ⟨v, hk, hv⟩
      have := hin (k + 1) c ⟨v, by simpa [entryAt] using hk, hv⟩
      have e : row + 1 + k = row + (k + 1) := by omega
      rw [e]; exact this
    obtain ⟨b1, hb1, hwf1, hset1, hkeep1⟩ := lockCols_spec piece row cells 0 board hwf hin0
    obtain ⟨b, hb, hwfb, hset, hkeep⟩ := ih (row + 1) b1 hwf1 hin'
    unfold lockRows
    rw [hb1]
    refine ⟨b, hb, hwfb, ?_, ?_⟩
    · rintro k c ⟨v, hk, hv⟩
      cases k with
      | zero =>
        rw [hkeep]
        · have := hset1 c v (by simpa [entryAt] using hk) hv
          simpa using this
        · intro k c _ hh
          have := hh.1
          omega
      | succ k =>
        have := hset k c ⟨v, by simpa [entryAt] using hk, hv⟩
        have e : row + 1 + k = row + (k + 1) := by omega
        rw [e] at this; exact this
    · intro i j hij
      rw [hkeep, hkeep1]
      · intro k v hk hv
        have := hij 0 k ⟨v, by simpa [entryAt] using hk, hv⟩
        simpa using this
      · rintro k c ⟨v, hk, hv⟩
        have := hij (k + 1) c ⟨v, by simpa [entryAt] using hk, hv⟩
        have e : row + 1 + k = row + (k + 1) := by omega
        rw [e]; exact this

theorem filled_occupied {shape : Shape} {r c : Nat} (h : Filled shape r c) : Occupied shape r c := by
  obtain ⟨v, hv, ht⟩ := h
  refine ⟨v, hv, ?_⟩
  rintro rfl
  simp [Val.truthy] at ht

/-- A piece that does not collide and has `y ≥ 0` has every cell it writes inside
the board, on an empty cell. -/
theorem filled_inside (board : Board) (piece : Piece) (hy : 0 ≤ piece.y)
    (hfree : ¬ Collides board piece 0 0 piece.shape) (r c : Nat) (h : Occupied piece.shape r c) :
    0 ≤ piece.y + (r : Int) ∧ piece.y + (r : Int) < ROWS ∧
    0 ≤ piece.x + (c : Int) ∧ piece.x + (c : Int) < COLUMNS ∧
    ∀ cell, cellAt board (piece.y + r) (piece.x + c) = some cell → cell = Cell.zero := by
  have hnb : ¬ Blocked board (piece.x + c + 0) (piece.y + r + 0) := fun hb => hfree ⟨r, c, h, hb⟩
  simp only [Blocked, add_zero, not_or, not_and, not_exists, not_lt, not_le] at hnb
  obtain ⟨⟨h1, h2⟩, h3, h4⟩ := hnb
  have h0 : 0 ≤ piece.y + (r : Int) := by omega
  refine ⟨h0, h3, h1, h2, ?_⟩
  intro cell hcell
  by_contra hne
  exact h4 h0 h3 cell hcell hne

theorem writePiece_spec (board : Board) (h : WFBoard board) (piece : Piece) (hy : 0 ≤ piece.y)
    (hfree : ¬ Collides board piece 0 0 piece.shape) :
    ∃ b, writePiece board piece = some b ∧ WFBoard b ∧
      (∀ r c, Filled piece.shape r c →
        cellAt b (piece.y + (r : Int)) (piece.x + (c : Int)) = some (Cell.color piece.color)) ∧
      (∀ i j, (∀ r c, Filled piece.shape r c →
          ¬(i = piece.y + (r : Int) ∧ j = piece.x + (c : Int))) →
        cellAt b i j = cellAt board i j) := by
  have hin : ∀ k c, Filled piece.shape k c →
      0 ≤ piece.y + ((0 + k : Nat) : Int) ∧ piece.y + ((0 + k : Nat) : Int) < ROWS ∧
      0 ≤ piece.x + (c : Int) ∧ piece.x + (c : Int) < COLUMNS := by
    intro k c hf
    obtain ⟨h1, h2, h3, h4, _⟩ := filled_inside board piece hy hfree k c (filled_occupied hf)
    simp only [Nat.zero_add]
    exact ⟨h1, h2, h3, h4⟩
  obtain ⟨b, hb, hwf, hset, hkeep⟩ := lockRows_spec piece piece.shape 0 board h hin
  refine ⟨b, hb, hwf, ?_, ?_⟩
  · intro r c hf
    simpa using hset r c hf
  · intro i j hij
    apply hkeep
    intro k c hf
    simpa using hij k c hf

/-! ### Moving and turning the piece -/

theorem checkCell_congr (board : Board) (p q : Piece) (dx dy dx1 dy1 : Int) (r c : Nat) (v : Val)
    (hx : p.x + dx = q.x + dx1) (hy : p.y + dy = q.y + dy1) :
    checkCell board p dx dy r c v = checkCell board q dx1 dy1 r c v := by
  have e1 : p.x + (c : Int) + dx = q.x + (c : Int) + dx1 := by omega
  have e2 : p.y + (r : Int) + dy = q.y + (r : Int) + dy1 := by omega
  unfold checkCell
  rw [e1, e2]

theorem checkCols_congr (board : Board) (p q : Piece) (dx dy dx1 dy1 : Int) (r : Nat)
    (hx : p.x + dx = q.x + dx1) (hy : p.y + dy = q.y + dy1) : ∀ (vs : List Val) (c : Nat),
    checkCols board p dx dy r c vs = checkCols board q dx1 dy1 r c vs := by
  intro vs
  induction vs with
  | nil => intro c; rfl
  | cons v vs ih =>
    intro c
    unfold checkCols
    rw [checkCell_congr board p q dx dy dx1 dy1 r c v hx hy, ih]

theorem checkRows_congr (board : Board) (p q : Piece) (dx dy dx1 dy1 : Int)
    (hx : p.x + dx = q.x + dx1) (hy : p.y + dy = q.y + dy1) : ∀ (shape : List (List Val)) (r : Nat),
    checkRows board p dx dy r shape = checkRows board q dx1 dy1 r shape := by
  intro shape
  induction shape with
  | nil => intro r; rfl
  | cons cells rest ih =>
    intro r
    unfold checkRows
    rw [checkCols_congr board p q dx dy dx1 dy1 r hx hy, ih]

/-- Testing an offset is testing the moved piece in place. -/
theorem checkCollision_moved (board : Board) (p : Piece) (dx dy : Int) :
    checkCollision board { p with x := p.x + dx, y := p.y + dy } 0 0 none =
      checkCollision board p dx dy none := by
  unfold checkCollision
  exact checkRows_congr board _ _ 0 0 dx dy (by simp) (by simp) _ 0

/-- Testing a candidate shape is testing the piece with that shape. -/
theorem checkCollision_reshaped (board : Board) (p : Piece) (shape : Shape) :
    checkCollision board { p with shape := shape } 0 0 none =
      checkCollision board p 0 0 (some shape) := by
  unfold checkCollision
  exact checkRows_congr board { p with shape := shape } p 0 0 0 0 rfl rfl shape 0

theorem checkCollision_total (board : Board) (h : WFBoard board) (p : Piece) (dx dy : Int)
    (newShape : Option Shape) : ∃ b, checkCollision board p dx dy newShape = some b := by
  obtain ⟨b, hb, _⟩ := checkCollision_spec board h p dx dy newShape
  exact ⟨b, hb⟩

theorem checkCollision_false_iff (board : Board) (h : WFBoard board) (p : Piece) (dx dy : Int)
    (newShape : Option Shape) :
    checkCollision board p dx dy newShape = some false ↔
      ¬ Collides board p dx dy (newShape.getD p.shape) := by
  obtain ⟨b, hb, hiff⟩ := checkCollision_spec board h p dx dy newShape
  rw [hb, ← hiff]
  cases b <;> simp

theorem checkCollision_true_iff (board : Board) (h : WFBoard board) (p : Piece) (dx dy : Int)
    (newShape : Option Shape) :
    checkCollision board p dx dy newShape = some true ↔
      Collides board p dx dy (newShape.getD p.shape) := by
  obtain ⟨b, hb, hiff⟩ := checkCollision_spec board h p dx dy newShape
  rw [hb, ← hiff]
  cases b <;> simp

theorem rotateShape_good (shape : Shape) (h : GoodShape shape) :
    ∃ ns, rotateShape shape = some ns ∧ GoodShape ns := by
  obtain ⟨h1, h2, h3, h4⟩ := h
  obtain ⟨ns, hns, hlen, hrows⟩ := rotateShape_dims shape shape.length _ h1 rfl h3
  have hpos : 0 < ns.length := by omega
  refine ⟨ns, hns, hpos, ?_, ?_, ?_⟩
  · cases ns with
    | nil => simp at hpos
    | cons a t => simpa using (hrows a (by simp)).symm ▸ h1
  · intro cells hc
    cases ns with
    | nil => simp at hc
    | cons a t =>
      rw [hrows cells hc]
      simpa using (hrows a (by simp)).symm
  · intro cells hc v hv
    have hfirst : shape[0]? = some shape[0] := List.getElem?_eq_getElem h1
    rw [rotateShape_eq shape _ hfirst] at hns
    cases hns
    simp only [List.mem_map, List.mem_range] at hc
    obtain ⟨c, hcW, rfl⟩ := hc
    simp only [List.mem_reverse, List.mem_map] at hv
    obtain ⟨row, hrow, rfl⟩ := hv
    have hW : (shape[0]).length = (shape.headD []).length := h3 _ (List.getElem_mem _)
    have hcr : c < row.length := by rw [h3 row hrow, ← hW]; exact hcW
    rw [List.getD_eq_getElem?_getD, List.getElem?_eq_getElem hcr]
    exact h4 row hrow _ (List.getElem_mem _)

/-! ### Handlers and the invariant -/

theorem createPiece_spec (i : Fin 7) :
    ∃ p, createPiece i = some p ∧ GoodShape p.shape ∧ p.y = 0 ∧
      checkCollision emptyBoard p 0 0 none = some false := by
  fin_cases i <;> exact ⟨_, rfl, by decide, rfl, by decide!⟩

theorem fill_zero (board : Board) (h : WFBoard board) :
    (board.map fun cells => cells.map fun _ => Cell.zero) = emptyBoard := by
  obtain ⟨hlen, hrows⟩ := h
  have h1 : (board.map fun cells => cells.map fun _ => Cell.zero)
      = board.map fun _ => emptyRow := by
    apply List.map_congr_left
    intro cells hc
    rw [List.map_const', hrows cells hc]
    rfl
  rw [h1, List.map_const', hlen]
  rfl

theorem emptyBoard_wf : WFBoard emptyBoard := by decide

theorem spawnNewPiece_eq (s : State) (r1 r2 : Fin 7) (cur nxt : Piece) (hit : Bool)
    (hcur : (s.nextPiece <|> createPiece r1) = some cur)
    (hnxt : createPiece r2 = some nxt)
    (hhit : checkCollision s.board cur 0 0 none = some hit) :
    spawnNewPiece s r1 r2 =
      some (if hit then endGame { s with currentPiece := some cur, nextPiece := some nxt }
            else { s with currentPiece := some cur, nextPiece := some nxt }) := by
  unfold spawnNewPiece
  simp only [Option.bind_eq_bind, hcur, Option.some_bind, hnxt, hhit]
  cases hit <;> rfl

theorem tryMove_eq (s : State) (dx dy : Int) (p : Piece) (hit : Bool)
    (hp : s.currentPiece = some p) (hhit : checkCollision s.board p dx dy none = some hit) :
    tryMove s dx dy =
      some (if hit then s
            else { s with currentPiece := some { p with x := p.x + dx, y := p.y + dy } }) := by
  unfold tryMove
  simp only [Option.bind_eq_bind, hp, Option.some_bind, hhit]
  cases hit <;> rfl

theorem rotatePiece_eq (s : State) (p : Piece) (ns : Shape) (hit : Bool)
    (hover : s.gameOver = false) (hpaused : s.gamePaused = false)
    (hp : s.currentPiece = some p) (hns : rotateShape p.shape = some ns)
    (hhit : checkCollision s.board p 0 0 (some ns) = some hit) :
    rotatePiece s =
      some (if hit then s else { s with currentPiece := some { p with shape := ns } }) := by
  unfold rotatePiece
  simp only [hover, hpaused, Bool.or_self, Bool.false_eq_true, if_false, Option.bind_eq_bind, hp,
    Option.some_bind, hns, hhit]
  cases hit <;> rfl

theorem clearInterval_timers (s : State)
    (h : s.timers = [] ∨ ∃ id, s.gameInterval = some id ∧ s.timers = [id]) :
    (clearInterval s).timers = [] := by
  unfold clearInterval
  rcases h with h | ⟨id, h1, h2⟩
  · cases hg : s.gameInterval <;> simp [h]
  · simp [h1, h2]

theorem clearInterval_eq (s : State) :
    clearInterval s = { s with timers := (clearInterval s).timers } := by
  obtain ⟨_, _, _, _, interval, _, _, _, _, _, _, _, _⟩ := s
  cases interval <;> rfl

theorem inv_init : Inv init := by
  refine ⟨by decide, fun _ => rfl, ?_, ?_, Or.inl rfl⟩
  · intro q h; cases h
  · intro h; cases h

theorem inv_moved (s : State) (h : Inv s) (p : Piece) (dx dy : Int) (hdy : 0 ≤ dy)
    (hp : s.currentPiece = some p) (hhit : checkCollision s.board p dx dy none = some false) :
    Inv (movedState s p dx dy) := by
  refine ⟨h.board_wf, h.not_both, h.next_fresh, ?_, h.timers_one⟩
  intro hover
  obtain ⟨p1, q, hp1, hq, hgood, hy, _⟩ := h.active hover
  rw [hp] at hp1
  cases hp1
  refine ⟨_, q, rfl, hq, hgood, ?_, ?_⟩
  · show 0 ≤ p.y + dy
    omega
  · show checkCollision s.board { p with x := p.x + dx, y := p.y + dy } 0 0 none = some false
    rw [checkCollision_moved, hhit]

theorem tryMove_spec (s : State) (h : Inv s) (hover : s.gameOver = false) (dx dy : Int)
    (hdy : 0 ≤ dy) :
    ∃ p hit, s.currentPiece = some p ∧ checkCollision s.board p dx dy none = some hit ∧
      tryMove s dx dy = some (if hit then s else movedState s p dx dy) ∧
      Inv (if hit then s else movedState s p dx dy) := by
  obtain ⟨p, q, hp, _, _, _, _⟩ := h.active hover
  obtain ⟨hit, hhit⟩ := checkCollision_total s.board h.board_wf p dx dy none
  refine ⟨p, hit, hp, hhit, tryMove_eq s dx dy p hit hp hhit, ?_⟩
  cases hit with
  | true => exact h
  | false => exact inv_moved s h p dx dy hdy hp hhit

theorem rotatePiece_spec (s : State) (h : Inv s) (hover : s.gameOver = false)
    (hpaused : s.gamePaused = false) :
    ∃ p ns hit, s.currentPiece = some p ∧ rotateShape p.shape = some ns ∧
      checkCollision s.board p 0 0 (some ns) = some hit ∧
      rotatePiece s =
        some (if hit then s else { s with currentPiece := some { p with shape := ns } }) ∧
      Inv (if hit then s else { s with currentPiece := some { p with shape := ns } }) := by
  obtain ⟨p, q, hp, hq, hgood, hy, _⟩ := h.active hover
  obtain ⟨ns, hns, hgood1⟩ := rotateShape_good p.shape hgood
  obtain ⟨hit, hhit⟩ := checkCollision_total s.board h.board_wf p 0 0 (some ns)
  refine ⟨p, ns, hit, hp, hns, hhit, rotatePiece_eq s p ns hit hover hpaused hp hns hhit, ?_⟩
  cases hit with
  | true => exact h
  | false =>
    refine ⟨h.board_wf, h.not_both, h.next_fresh, ?_, h.timers_one⟩
    intro _
    refine ⟨_, q, rfl, hq, hgood1, hy, ?_⟩
    show checkCollision s.board { p with shape := ns } 0 0 none = some false
    rw [checkCollision_reshaped, hhit]

theorem rotatePiece_idle (s : State) (h : (s.gameOver || s.gamePaused) = true) :
    rotatePiece s = some s := by
  unfold rotatePiece
  rw [if_pos h]

theorem inv_rotatePiece (s : State) (h : Inv s) : ∃ s1, rotatePiece s = some s1 ∧ Inv s1 := by
  by_cases hg : (s.gameOver || s.gamePaused) = true
  · exact ⟨s, rotatePiece_idle s hg, h⟩
  · simp only [Bool.or_eq_true, not_or, Bool.not_eq_true] at hg
    obtain ⟨p, ns, hit, _, _, _, heq, hinv⟩ := rotatePiece_spec s h hg.1 hg.2
    exact ⟨_, heq, hinv⟩

theorem lockPiece_eq (s s1 : State) (r1 r2 : Fin 7) (p : Piece) (b : Board)
    (hp : s.currentPiece = some p) (hb : writePiece s.board p = some b)
    (hc : clearRows { s with board := b } = some s1) :
    lockPiece s r1 r2 = spawnNewPiece s1 r1 r2 := by
  obtain ⟨_, _, _, _, _, cur, _, _, _, _, _, _, _⟩ := s
  simp only at hp hb hc
  subst hp
  unfold lockPiece
  simp only [Option.bind_eq_bind, Option.some_bind, hb, hc]

theorem lockPiece_spec (s : State) (h : Inv s) (hover : s.gameOver = false)
    (hpaused : s.gamePaused = false) (r1 r2 : Fin 7) :
    ∃ p q b nxt hit, s.currentPiece = some p ∧ s.nextPiece = some q ∧
      writePiece s.board p = some b ∧ WFBoard b ∧ createPiece r2 = some nxt ∧
      checkCollision (clearedBoard b) q 0 0 none = some hit ∧
      lockPiece s r1 r2 =
        some (if hit then endGame (lockedState s b q nxt) else lockedState s b q nxt) ∧
      Inv (if hit then endGame (lockedState s b q nxt) else lockedState s b q nxt) := by
  obtain ⟨p, q, hp, hq, hgood, hy, hfree⟩ := h.active hover
  have hfree1 := (checkCollision_false_iff s.board h.board_wf p 0 0 none).mp hfree
  obtain ⟨b, hb, hwfb, _, _⟩ := writePiece_spec s.board h.board_wf p hy hfree1
  obtain ⟨i, hi⟩ := h.next_fresh q hq
  obtain ⟨q1, hq1, hgoodq, hqy, _⟩ := createPiece_spec i
  rw [hi] at hq1
  cases hq1
  obtain ⟨nxt, hnxt, _, _, _⟩ := createPiece_spec r2
  have hwfc := clearedBoard_wf b hwfb
  obtain ⟨hit, hhit⟩ := checkCollision_total (clearedBoard b) hwfc q 0 0 none
  have hclear := clearRows_spec { s with board := b } hwfb.1
  have hspawn := spawnNewPiece_eq
    { s with board := clearedBoard b, score := scoreAfter s.score (b.countP rowFull) } r1 r2 q nxt hit
    (by simp [hq]) hnxt hhit
  refine ⟨p, q, b, nxt, hit, hp, hq, hb, hwfb, hnxt, hhit, ?_, ?_⟩
  · rw [lockPiece_eq s _ r1 r2 p b hp hb hclear]
    exact hspawn
  · cases hit with
    | true =>
      simp only [if_true]
      have ht : (endGame (lockedState s b q nxt)).timers = [] := by
        apply clearInterval_timers
        rcases h.timers_one with h1 | ⟨_, _, id, h2, h3⟩
        · exact Or.inl h1
        · exact Or.inr ⟨id, h2, h3⟩
      unfold endGame at ht ⊢
      rw [clearInterval_eq, ht]
      refine ⟨hwfc, fun _ => hpaused, ?_, ?_, Or.inl rfl⟩
      · intro q2 hq2
        cases hq2
        exact ⟨r2, hnxt⟩
      · intro hh
        cases hh
    | false =>
      refine ⟨hwfc, h.not_both, ?_, ?_, h.timers_one⟩
      · intro q2 hq2
        cases hq2
        exact ⟨r2, hnxt⟩
      · intro _
        exact ⟨q, nxt, rfl, rfl, hgoodq, by omega, hhit⟩

theorem gameLoop_idle (s : State) (r1 r2 : Fin 7) (h : (s.gameOver || s.gamePaused) = true) :
    gameLoop s r1 r2 = some s := by
  unfold gameLoop
  rw [if_pos h]

theorem gameLoop_eq (s : State) (r1 r2 : Fin 7) (p : Piece) (hit : Bool)
    (hover : s.gameOver = false) (hpaused : s.gamePaused = false)
    (hp : s.currentPiece = some p) (hhit : checkCollision s.board p 0 1 none = some hit) :
    gameLoop s r1 r2 = if hit then lockPiece s r1 r2 else some (movedState s p 0 1) := by
  unfold gameLoop
  rw [if_neg (by simp [hover, hpaused])]
  simp only [Option.bind_eq_bind, hp, Option.some_bind, hhit]
  cases hit
  · simp [movedState]
  · simp

theorem inv_gameLoop (s : State) (h : Inv s) (r1 r2 : Fin 7) :
    ∃ s1, gameLoop s r1 r2 = some s1 ∧ Inv s1 := by
  by_cases hg : (s.gameOver || s.gamePaused) = true
  · exact ⟨s, gameLoop_idle s r1 r2 hg, h⟩
  · simp only [Bool.or_eq_true, not_or, Bool.not_eq_true] at hg
    obtain ⟨p, q, hp, _, _, _, _⟩ := h.active hg.1
    obtain ⟨hit, hhit⟩ := checkCollision_total s.board h.board_wf p 0 1 none
    rw [gameLoop_eq s r1 r2 p hit hg.1 hg.2 hp hhit]
    cases hit with
    | false => exact ⟨_, rfl, inv_moved s h p 0 1 (by omega) hp hhit⟩
    | true =>
      obtain ⟨_, _, _, _, hit1, _, _, _, _, _, _, heq, hinv⟩ := lockPiece_spec s h hg.1 hg.2 r1 r2
      exact ⟨_, heq, hinv⟩

theorem startGame_running (s : State) (r1 r2 : Fin 7) (h : s.gameOver = false) :
    startGame s r1 r2 = some s := by
  unfold startGame
  simp [h]

theorem startGame_spec (s : State) (h : Inv s) (hover : s.gameOver = true) (r1 r2 : Fin 7) :
    ∃ cur nxt, (s.nextPiece <|> createPiece r1) = some cur ∧ createPiece r2 = some nxt ∧
      (∃ i, createPiece i = some cur) ∧
      checkCollision emptyBoard cur 0 0 none = some false ∧
      startGame s r1 r2 = some (startedState s cur nxt) ∧ Inv (startedState s cur nxt) := by
  have hcur : ∃ cur i, (s.nextPiece <|> createPiece r1) = some cur ∧ createPiece i = some cur := by
    cases hn : s.nextPiece with
    | none =>
      obtain ⟨cur, hc, _⟩ := createPiece_spec r1
      exact ⟨cur, r1, by simpa using hc, hc⟩
    | some q =>
      obtain ⟨i, hi⟩ := h.next_fresh q hn
      exact ⟨q, i, by simp, hi⟩
  obtain ⟨cur, i, hcur, hi⟩ := hcur
  obtain ⟨cur1, hc1, hgood, hy, hfree⟩ := createPiece_spec i
  rw [hi] at hc1
  cases hc1
  obtain ⟨nxt, hnxt, _, _, _⟩ := createPiece_spec r2
  have hspawn := spawnNewPiece_eq
    { s with gameOver := false, score := 0, board := emptyBoard } r1 r2 cur nxt false
    hcur hnxt hfree
  refine ⟨cur, nxt, hcur, hnxt, ⟨i, hi⟩, hfree, ?_, ?_⟩
  · unfold startGame
    simp only [hover, Bool.not_true, Bool.false_eq_true, if_false, Option.bind_eq_bind,
      fill_zero s.board h.board_wf, hspawn, Option.some_bind]
    rfl
  · have ht : s.timers = [] := by
      rcases h.timers_one with h1 | ⟨h2, _⟩
      · exact h1
      · rw [hover] at h2; cases h2
    refine ⟨emptyBoard_wf, ?_, ?_, ?_, ?_⟩
    · intro hh; cases hh
    · intro q hq
      cases hq
      exact ⟨r2, hnxt⟩
    · intro _
      exact ⟨cur, nxt, rfl, rfl, hgood, by omega, hfree⟩
    · refine Or.inr ⟨rfl, h.not_both hover, s.nextId, rfl, ?_⟩
      show s.nextId :: s.timers = [s.nextId]
      rw [ht]

theorem inv_startGame (s : State) (h : Inv s) (r1 r2 : Fin 7) :
    ∃ s1, startGame s r1 r2 = some s1 ∧ Inv s1 := by
  by_cases hover : s.gameOver = true
  · obtain ⟨cur, nxt, _, _, _, _, heq, hinv⟩ := startGame_spec s h hover r1 r2
    exact ⟨_, heq, hinv⟩
  · exact ⟨s, startGame_running s r1 r2 (by simpa using hover), h⟩

theorem inv_clearInterval (s : State) (h : Inv s) :
    Inv (clearInterval s) ∧ (clearInterval s).timers = [] := by
  have ht : (clearInterval s).timers = [] := by
    apply clearInterval_timers
    rcases h.timers_one with h1 | ⟨_, _, id, h2, h3⟩
    · exact Or.inl h1
    · exact Or.inr ⟨id, h2, h3⟩
  refine ⟨?_, ht⟩
  rw [clearInterval_eq, ht]
  exact ⟨h.board_wf, h.not_both, h.next_fresh, h.active, Or.inl rfl⟩

theorem inv_restartGame (s : State) (h : Inv s) (r1 r2 : Fin 7) :
    ∃ s1, restartGame s r1 r2 = some s1 ∧ Inv s1 :=
  inv_startGame (clearInterval s) (inv_clearInterval s h).1 r1 r2

theorem inv_pauseGame (s : State) (h : Inv s) : Inv (pauseGame s) := by
  unfold pauseGame
  by_cases hover : s.gameOver = true
  · rw [if_pos hover]; exact h
  · rw [if_neg hover]
    by_cases hpaused : s.gamePaused = true
    · rw [if_pos hpaused]
      have ht : s.timers = [] := by
        rcases h.timers_one with h1 | ⟨_, h2, _⟩
        · exact h1
        · rw [hpaused] at h2; cases h2
      refine ⟨h.board_wf, fun _ => rfl, h.next_fresh, h.active, ?_⟩
      refine Or.inr ⟨by simpa using hover, rfl, s.nextId, rfl, ?_⟩
      show s.nextId :: s.timers = [s.nextId]
      rw [ht]
    · rw [if_neg hpaused]
      have ht : (clearInterval { s with gamePaused := true }).timers = [] := by
        apply clearInterval_timers
        rcases h.timers_one with h1 | ⟨_, _, id, h2, h3⟩
        · exact Or.inl h1
        · exact Or.inr ⟨id, h2, h3⟩
      rw [clearInterval_eq, ht]
      exact ⟨h.board_wf, fun hh => absurd hh hover, h.next_fresh, h.active, Or.inl rfl⟩

theorem inv_tryMove (s : State) (h : Inv s) (hover : s.gameOver = false) (dx dy : Int)
    (hdy : 0 ≤ dy) : ∃ s1, tryMove s dx dy = some s1 ∧ Inv s1 := by
  obtain ⟨p, hit, _, _, heq, hinv⟩ := tryMove_spec s h hover dx dy hdy
  exact ⟨_, heq, hinv⟩

theorem inv_touch (s : State) (h : Inv s) (a b c d : Int) :
    Inv { s with touchStartX := a, touchStartY := b, touchEndX := c, touchEndY := d } :=
  ⟨h.board_wf, h.not_both, h.next_fresh, h.active, h.timers_one⟩

/-- Every handler completes on a state satisfying the invariant, and keeps it. -/
theorem inv_step (s : State) (h : Inv s) (e : Event) : ∃ s1, step s e = some s1 ∧ Inv s1 := by
  cases e with
  | startClick r1 r2 => exact inv_startGame s h r1 r2
  | pauseClick => exact ⟨_, rfl, inv_pauseGame s h⟩
  | restartClick r1 r2 => exact inv_restartGame s h r1 r2
  | tick r1 r2 => exact inv_gameLoop s h r1 r2
  | keydown key =>
    show ∃ s1, keydown s key = some s1 ∧ Inv s1
    unfold keydown
    by_cases hg : (s.gameOver || s.gamePaused) = true
    · rw [if_pos hg]; exact ⟨s, rfl, h⟩
    · rw [if_neg hg]
      simp only [Bool.or_eq_true, not_or, Bool.not_eq_true] at hg
      cases key with
      | ArrowUp => exact inv_rotatePiece s h
      | ArrowDown => exact inv_tryMove s h hg.1 0 1 (by omega)
      | ArrowLeft => exact inv_tryMove s h hg.1 (-1) 0 (by omega)
      | ArrowRight => exact inv_tryMove s h hg.1 1 0 (by omega)
      | other => exact ⟨s, rfl, h⟩
  | leftClick =>
    show ∃ s1, leftBtnClick s = some s1 ∧ Inv s1
    unfold leftBtnClick
    by_cases hg : (!s.gameOver && !s.gamePaused) = true
    · rw [if_pos hg]
      simp only [Bool.and_eq_true, Bool.not_eq_true'] at hg
      exact inv_tryMove s h hg.1 (-1) 0 (by omega)
    · rw [if_neg hg]; exact ⟨s, rfl, h⟩
  | rightClick =>
    show ∃ s1, rightBtnClick s = some s1 ∧ Inv s1
    unfold rightBtnClick
    by_cases hg : (!s.gameOver && !s.gamePaused) = true
    · rw [if_pos hg]
      simp only [Bool.and_eq_true, Bool.not_eq_true'] at hg
      exact inv_tryMove s h hg.1 1 0 (by omega)
    · rw [if_neg hg]; exact ⟨s, rfl, h⟩
  | rotateClick => exact inv_rotatePiece s h
  | downClick =>
    show ∃ s1, downBtnClick s = some s1 ∧ Inv s1
    unfold downBtnClick
    by_cases hg : (!s.gameOver && !s.gamePaused) = true
    · rw [if_pos hg]
      simp only [Bool.and_eq_true, Bool.not_eq_true'] at hg
      exact inv_tryMove s h hg.1 0 1 (by omega)
    · rw [if_neg hg]; exact ⟨s, rfl, h⟩
  | touchstart x y =>
    refine ⟨_, rfl, ?_⟩
    unfold touchstart
    split
    · exact h
    · exact inv_touch s h x y s.touchEndX s.touchEndY
  | touchend x y =>
    show ∃ s1, touchend s x y = some s1 ∧ Inv s1
    unfold touchend
    by_cases hg : (s.gameOver || s.gamePaused) = true
    · rw [if_pos hg]; exact ⟨s, rfl, h⟩
    · rw [if_neg hg]
      simp only [Bool.or_eq_true, not_or, Bool.not_eq_true] at hg
      have h1 := inv_touch s h s.touchStartX s.touchStartY x y
      unfold handleSwipe
      simp only
      split
      · split
        · exact inv_tryMove _ h1 hg.1 1 0 (by omega)
        · exact inv_tryMove _ h1 hg.1 (-1) 0 (by omega)
      · split
        · exact inv_tryMove _ h1 hg.1 0 1 (by omega)
        · exact inv_rotatePiece _ h1

theorem reachable_inv (s : State) (h : Reachable s) : Inv s := by
  induction h with
  | init => exact inv_init
  | step e _ _ hstep ih =>
    obtain ⟨s2, h2, hinv⟩ := inv_step _ ih e
    rw [hstep] at h2
    cases h2
    exact hinv

theorem reachable_run (s s1 : State) (es : List Event) (h : Reachable s)
    (hrun : run s es = some s1) : Reachable s1 := by
  induction es generalizing s with
  | nil =>
    simp only [run, Option.some.injEq] at hrun
    exact hrun ▸ h
  | cons e es ih =>
    unfold run at hrun
    split at hrun
    · rename_i hen
      split at hrun
      · cases hrun
      · rename_i s2 hs2
        exact ih s2 (Reachable.step e h hen hs2) hrun
    · cases hrun

/-! ### Further lemmas for the claims -/

theorem free_cell (board : Board) (hwf : WFBoard board) (piece : Piece)
    (hfree : ¬ Collides board piece 0 0 piece.shape) (r c : Nat)
    (h : Occupied piece.shape r c) :
    0 ≤ piece.x + (c : Int) ∧ piece.x + (c : Int) < COLUMNS ∧ piece.y + (r : Int) < ROWS ∧
    (0 ≤ piece.y + (r : Int) →
      cellAt board (piece.y + r) (piece.x + c) = some Cell.zero) := by
  have hnb : ¬ Blocked board (piece.x + c + 0) (piece.y + r + 0) := fun hb => hfree ⟨r, c, h, hb⟩
  simp only [Blocked, add_zero, not_or, not_and, not_exists, not_lt, not_le] at hnb
  obtain ⟨⟨h1, h2⟩, h3, h4⟩ := hnb
  refine ⟨h1, h2, h3, ?_⟩
  intro h0
  obtain ⟨_, cell, _, _, hcell⟩ := cellAt_of_wf board hwf _ _ h0 h3 h1 h2
  rw [hcell]
  by_contra hne
  exact h4 h0 h3 cell hcell (fun hz => hne (by rw [hz]))

theorem occupied_iff_filled (shape : Shape) (h : GoodShape shape) (r c : Nat) :
    Occupied shape r c ↔ Filled shape r c := by
  constructor
  · rintro ⟨v, hv, hne⟩
    refine ⟨v, hv, ?_⟩
    have hmem : ∃ cells ∈ shape, v ∈ cells := by
      unfold entryAt at hv
      cases hrow : shape[r]? with
      | none => rw [hrow] at hv; cases hv
      | some cells =>
        rw [hrow] at hv
        exact ⟨cells, List.getElem?_mem hrow, List.getElem?_mem hv⟩
    obtain ⟨cells, hc, hvc⟩ := hmem
    rcases h.2.2.2 cells hc v hvc with h0 | h1
    · exact absurd h0 hne
    · rw [h1]; rfl
  · exact filled_occupied

theorem lockPiece_unfold (s : State) (r1 r2 : Fin 7) (p : Piece) (b : Board)
    (hp : s.currentPiece = some p) (hb : writePiece s.board p = some b) :
    lockPiece s r1 r2 =
      (clearRows { s with board := b }).bind fun s1 => spawnNewPiece s1 r1 r2 := by
  obtain ⟨_, _, _, _, _, cur, _, _, _, _, _, _, _⟩ := s
  simp only at hp hb
  subst hp
  unfold lockPiece
  simp only [Option.bind_eq_bind, Option.some_bind, hb]

theorem endGame_fields (t : State) :
    (endGame t).gameOver = true ∧ (endGame t).score = t.score ∧ (endGame t).board = t.board := by
  unfold endGame
  rw [clearInterval_eq]
  exact ⟨rfl, rfl, rfl⟩

theorem run_replicate_fixed (s : State) (e : Event) (hen : enabled s e = true)
    (hstep : step s e = some s) (n : Nat) : run s (List.replicate n e) = some s := by
  induction n with
  | zero => rfl
  | succ n ih =>
    rw [List.replicate_succ]
    unfold run
    rw [if_pos hen, hstep]
    exact ih

theorem moveCommands_step (s : State) (hover : s.gameOver = false)
    (hpaused : s.gamePaused = false) (e : Event) (dx dy : Int)
    (hmem : (e, dx, dy) ∈ moveCommands) :
    step s e = tryMove s dx dy ∧ 0 ≤ dy ∧ enabled s e = true := by
  simp only [moveCommands, List.mem_cons, Prod.mk.injEq, List.mem_singleton, List.not_mem_nil,
    or_false] at hmem
  rcases hmem with ⟨rfl, rfl, rfl⟩ | ⟨rfl, rfl, rfl⟩ | ⟨rfl, rfl, rfl⟩ | ⟨rfl, rfl, rfl⟩ |
    ⟨rfl, rfl, rfl⟩ | ⟨rfl, rfl, rfl⟩ <;>
  simp [step, keydown, leftBtnClick, rightBtnClick, downBtnClick, enabled, hover, hpaused]

theorem reachable_demoPlay : Reachable demoPlay :=
  reachable_run init demoPlay playEvents Reachable.init (by decide!)

theorem reachable_demoBottom : Reachable demoBottom :=
  reachable_run init demoBottom bottomEvents Reachable.init (by decide!)

theorem reachable_demoTwoRows : Reachable demoTwoRows :=
  reachable_run init demoTwoRows twoRowsEvents Reachable.init (by decide!)

theorem reachable_demoTower : Reachable demoTower :=
  reachable_run init demoTower towerEvents Reachable.init (by decide!)

theorem reachable_demoScored : Reachable demoScored :=
  reachable_run init demoScored scoredEvents Reachable.init (by decide!)

/-- The tick that locks the fifth O piece of `demoTwoRows` completes two rows
and takes the score from 0 to 20. -/
theorem demoTwoRows_tick_scores_twenty :
    demoTwoRows.score = 0 ∧ (gameLoop demoTwoRows 3 5).map State.score = some 20 := by
  decide!

/-- The tick that locks the tenth O piece of `demoTower` ends the game. -/
theorem demoTower_tick_ends_game :
    demoTower.gameOver = false ∧
      (gameLoop demoTower 0 0).map State.gameOver = some true := by
  decide!

/-! ### The score does not steer the game -/

theorem tryMove_withScore (x : Num) (s : State) (dx dy : Int) :
    tryMove (withScore x s) dx dy = (tryMove s dx dy).map (withScore x) := by
  obtain ⟨board, score, over, paused, interval, cur, next, a, b, c, d, timers, nextId⟩ := s
  cases cur with
  | none => rfl
  | some p =>
    simp only [tryMove, withScore, Option.bind_eq_bind, Option.some_bind]
    cases checkCollision board p dx dy none with
    | none => rfl
    | some hit => cases hit <;> rfl

theorem rotatePiece_withScore (x : Num) (s : State) :
    rotatePiece (withScore x s) = (rotatePiece s).map (withScore x) := by
  obtain ⟨board, score, over, paused, interval, cur, next, a, b, c, d, timers, nextId⟩ := s
  cases over <;> cases paused <;> try rfl
  cases cur with
  | none => rfl
  | some p =>
    simp only [rotatePiece, withScore, Option.bind_eq_bind, Option.some_bind, Bool.or_self,
      Bool.false_eq_true, if_false]
    cases rotateShape p.shape with
    | none => rfl
    | some ns =>
      simp only [Option.some_bind]
      cases checkCollision board p 0 0 (some ns) with
      | none => rfl
      | some hit => cases hit <;> rfl

theorem clearInterval_withScore (x : Num) (s : State) :
    clearInterval (withScore x s) = withScore x (clearInterval s) := by
  obtain ⟨board, score, over, paused, interval, cur, next, a, b, c, d, timers, nextId⟩ := s
  cases interval <;> rfl

theorem endGame_withScore (x : Num) (s : State) :
    endGame (withScore x s) = withScore x (endGame s) := by
  obtain ⟨board, score, over, paused, interval, cur, next, a, b, c, d, timers, nextId⟩ := s
  cases interval <;> rfl

theorem pauseGame_withScore (x : Num) (s : State) :
    pauseGame (withScore x s) = withScore x (pauseGame s) := by
  obtain ⟨board, score, over, paused, interval, cur, next, a, b, c, d, timers, nextId⟩ := s
  cases over <;> cases paused <;> cases interval <;> rfl

theorem spawnNewPiece_withScore (x : Num) (s : State) (r1 r2 : Fin 7) :
    spawnNewPiece (withScore x s) r1 r2 = (spawnNewPiece s r1 r2).map (withScore x) := by
  obtain ⟨board, score, over, paused, interval, cur, next, a, b, c, d, timers, nextId⟩ := s
  simp only [spawnNewPiece, withScore, Option.bind_eq_bind]
  cases (next <|> createPiece r1) with
  | none => rfl
  | some current =>
    simp only [Option.some_bind]
    cases createPiece r2 with
    | none => rfl
    | some nxt =>
      simp only [Option.some_bind]
      cases checkCollision board current 0 0 none with
      | none => rfl
      | some hit =>
        cases hit
        · rfl
        · simp only [Option.some_bind, if_true, Option.map_some', Option.some.injEq]
          cases interval <;> rfl

theorem clearRows_withScore (x : Num) (s : State) :
    clearRows (withScore x s) =
      match clearRowsLoop (2 * ROWS) s.board ((ROWS : Int) - 1) 0 with
      | none => none
      | some (board, k) => some (withScore (scoreAfter x k) { s with board := board }) := by
  obtain ⟨board, score, over, paused, interval, cur, next, a, b, c, d, timers, nextId⟩ := s
  simp only [clearRows, withScore, scoreAfter]
  cases clearRowsLoop (2 * ROWS) board ((ROWS : Int) - 1) 0 with
  | none => rfl
  | some res =>
    obtain ⟨b1, k⟩ := res
    simp only
    split <;> rfl

theorem withScore_withScore (x y : Num) (s : State) :
    withScore x (withScore y s) = withScore x s := rfl

theorem gameLoop_withScore (x : Num) (s : State) (r1 r2 : Fin 7) :
    gameLoop (withScore x s) r1 r2 =
      (gameLoop s r1 r2).map (withScore (scoreAfter x (tickRows s))) := by
  obtain ⟨board, score, over, paused, interval, cur, next, a, b, c, d, timers, nextId⟩ := s
  cases over <;> cases paused <;> try rfl
  cases cur with
  | none => rfl
  | some p =>
    simp only [gameLoop, tickRows, withScore, Option.bind_eq_bind, Option.some_bind, Bool.or_self,
      Bool.false_eq_true, if_false]
    cases hc : checkCollision board p 0 1 none with
    | none => rfl
    | some hit =>
      cases hit
      · rfl
      · simp only [Option.some_bind, Bool.not_true, Bool.false_eq_true, if_false, lockPiece,
          Option.bind_eq_bind]
        cases hw : writePiece board p with
        | none => rfl
        | some b1 =>
          simp only [Option.some_bind]
          have h1 := clearRows_withScore x
            { board := b1, score := score, gameOver := false, gamePaused := false,
              gameInterval := interval, currentPiece := some p, nextPiece := next,
              touchStartX := a, touchStartY := b, touchEndX := c, touchEndY := d,
              timers := timers, nextId := nextId }
          have h2 := clearRows_withScore score
            { board := b1, score := score, gameOver := false, gamePaused := false,
              gameInterval := interval, currentPiece := some p, nextPiece := next,
              touchStartX := a, touchStartY := b, touchEndX := c, touchEndY := d,
              timers := timers, nextId := nextId }
          simp only [withScore] at h1 h2
          rw [h1, h2]
          cases clearRowsLoop (2 * ROWS) b1 ((ROWS : Int) - 1) 0 with
          | none => rfl
          | some res =>
            obtain ⟨b2, k⟩ := res
            simp only [Option.some_bind]
            exact spawnNewPiece_withScore (scoreAfter x k)
              { board := b2, score := scoreAfter score k, gameOver := false, gamePaused := false,
                gameInterval := interval, currentPiece := some p, nextPiece := next,
                touchStartX := a, touchStartY := b, touchEndX := c, touchEndY := d,
                timers := timers, nextId := nextId } r1 r2

/-- A handler other than start and restart runs the same way whatever the score
is, and leaves the score of `clearRows`. -/
theorem step_withScore (x : Num) (s : State) (e : Event) (he : keepsGame e = true) :
    step (withScore x s) e = (step s e).map (withScore (scoreAfter x (stepRows s e))) := by
  cases e with
  | startClick r1 r2 => cases he
  | restartClick r1 r2 => cases he
  | pauseClick =>
    show some (pauseGame (withScore x s)) = some (withScore x (pauseGame s))
    rw [pauseGame_withScore]
  | tick r1 r2 => exact gameLoop_withScore x s r1 r2
  | keydown key =>
    show keydown (withScore x s) key = (keydown s key).map (withScore x)
    unfold keydown
    have hg : ((withScore x s).gameOver || (withScore x s).gamePaused)
        = (s.gameOver || s.gamePaused) := rfl
    rw [hg]
    split
    · rfl
    · cases key with
      | ArrowUp => exact rotatePiece_withScore x s
      | ArrowDown => exact tryMove_withScore x s 0 1
      | ArrowLeft => exact tryMove_withScore x s (-1) 0
      | ArrowRight => exact tryMove_withScore x s 1 0
      | other => rfl
  | leftClick =>
    show leftBtnClick (withScore x s) = (leftBtnClick s).map (withScore x)
    unfold leftBtnClick
    have hg : (!(withScore x s).gameOver && !(withScore x s).gamePaused)
        = (!s.gameOver && !s.gamePaused) := rfl
    rw [hg]
    split
    · exact tryMove_withScore x s (-1) 0
    · rfl
  | rightClick =>
    show rightBtnClick (withScore x s) = (rightBtnClick s).map (withScore x)
    unfold rightBtnClick
    have hg : (!(withScore x s).gameOver && !(withScore x s).gamePaused)
        = (!s.gameOver && !s.gamePaused) := rfl
    rw [hg]
    split
    · exact tryMove_withScore x s 1 0
    · rfl
  | rotateClick => exact rotatePiece_withScore x s
  | downClick =>
    show downBtnClick (withScore x s) = (downBtnClick s).map (withScore x)
    unfold downBtnClick
    have hg : (!(withScore x s).gameOver && !(withScore x s).gamePaused)
        = (!s.gameOver && !s.gamePaused) := rfl
    rw [hg]
    split
    · exact tryMove_withScore x s 0 1
    · rfl
  | touchstart cx cy =>
    show some (touchstart (withScore x s) cx cy) = some (withScore x (touchstart s cx cy))
    unfold touchstart
    have hg : ((withScore x s).gameOver || (withScore x s).gamePaused)
        = (s.gameOver || s.gamePaused) := rfl
    rw [hg]
    split <;> rfl
  | touchend cx cy =>
    show touchend (withScore x s) cx cy = (touchend s cx cy).map (withScore x)
    unfold touchend
    have hg : ((withScore x s).gameOver || (withScore x s).gamePaused)
        = (s.gameOver || s.gamePaused) := rfl
    rw [hg]
    split
    · rfl
    · unfold handleSwipe
      simp only
      have ha : (withScore x s).touchStartX = s.touchStartX := rfl
      have hb : (withScore x s).touchStartY = s.touchStartY := rfl
      simp only [ha, hb]
      split
      · split
        · exact tryMove_withScore x { s with touchEndX := cx, touchEndY := cy } 1 0
        · exact tryMove_withScore x { s with touchEndX := cx, touchEndY := cy } (-1) 0
      · split
        · exact tryMove_withScore x { s with touchEndX := cx, touchEndY := cy } 0 1
        · exact rotatePiece_withScore x { s with touchEndX := cx, touchEndY := cy }

theorem run_withScore (es : List Event) : ∀ (s : State) (x : Num), quiet s es = true →
    run (withScore x s) es = (run s es).map (withScore x) := by
  induction es with
  | nil => intro s x _; rfl
  | cons e es ih =>
    intro s x hq
    simp only [quiet, Bool.and_eq_true, beq_iff_eq] at hq
    obtain ⟨⟨hk, hrows⟩, hrest⟩ := hq
    have hen : enabled (withScore x s) e = enabled s e := by
      cases e <;> rfl
    unfold run
    rw [hen, step_withScore x s e hk, hrows]
    split
    · cases hs : step s e with
      | none => rfl
      | some s1 =>
        rw [hs] at hrest
        simp only [Option.map_some', scoreAfter_zero]
        exact ih s1 x hrest
    · rfl

/-! ### A reachable state with a large score -/

theorem fiveDrops_run (x : Num) :
    run (withScore x cycleStart) fiveDrops = some (withScore x demoTwoRows) := by
  rw [run_withScore fiveDrops cycleStart x (by decide!)]
  have h : run cycleStart fiveDrops = some demoTwoRows := by decide!
  rw [h, Option.map_some']

theorem fifth_lock (x : Num) :
    step (withScore x demoTwoRows) (Event.tick 1 1) =
      some (withScore (scoreAfter x 2) cycleStart) := by
  rw [step_withScore x demoTwoRows (Event.tick 1 1) rfl]
  have h1 : step demoTwoRows (Event.tick 1 1) = some (withScore 20 cycleStart) := by decide!
  have h2 : stepRows demoTwoRows (Event.tick 1 1) = 2 := by decide!
  rw [h1, h2, Option.map_some', withScore_withScore]

theorem scoreAfter_fin (a k : Nat) (hk : k > 0) :
    scoreAfter (Num.fin a) k = Num.ofInteger (a + k * 10) := by
  unfold scoreAfter
  rw [if_pos hk]
  rfl

theorem enabled_withScore (x : Num) (s : State) (e : Event) :
    enabled (withScore x s) e = enabled s e := by
  cases e <;> rfl

/-- Dropping five O pieces side by side clears two rows and leaves the board
empty: the game is back in its first state with 20 more points, exactly, as long
as the score stays below `2^55`. -/
theorem reachable_cycle (n : Nat) (h : 20 * n < 2 ^ 55) :
    Reachable (withScore (Num.fin (20 * n)) cycleStart) := by
  induction n with
  | zero =>
    exact reachable_run init _ [Event.startClick 1 1] Reachable.init (by decide!)
  | succ n ih =>
    have h1 := ih (by omega)
    have h2 := reachable_run _ _ fiveDrops h1 (fiveDrops_run (Num.fin (20 * n)))
    have hen : enabled (withScore (Num.fin (20 * n)) demoTwoRows) (Event.tick 1 1) = true := by
      rw [enabled_withScore]
      decide!
    have h3 := Reachable.step (Event.tick 1 1) h2 hen (fifth_lock (Num.fin (20 * n)))
    have hs : scoreAfter (Num.fin (20 * n)) 2 = Num.fin (20 * (n + 1)) := by
      have e : 20 * n + 2 * 10 = 20 * (n + 1) := by omega
      rw [scoreAfter_fin (20 * n) 2 (by omega), e,
        ofInteger_exact_four (20 * (n + 1)) h (by omega)]
    rw [hs] at h3
    exact h3

theorem reachable_bigScoreState : Reachable bigScoreState := by
  have h1 := reachable_cycle 1801439850948198 (by norm_num)
  have e : 20 * 1801439850948198 = bigScore := by norm_num [bigScore]
  rw [e] at h1
  exact reachable_run _ _ fiveDrops h1 (fiveDrops_run (Num.fin bigScore))

/-! ## The claims -/

/-- C1: for every 20x10 board, `clearRows` completes and leaves a 20x10 board that
consists of `k` all-empty rows followed by exactly the rows of the input board
that were not full, in their original order, `k` being the number of rows that
were full before the call (adjacent full rows included); a row is full when none
of its cells is `0`. -/
theorem C1_clearRows_removes_exactly_full_rows (s : State) (hwf : WFBoard s.board) :
    (clearRows s).map State.board = some (clearedBoard s.board) ∧
    WFBoard (clearedBoard s.board) ∧
    clearedBoard s.board =
      List.replicate (s.board.countP rowFull) (List.replicate COLUMNS Cell.zero) ++
        s.board.filter (fun cells => !rowFull cells) ∧
    ∀ cells, rowFull cells = true ↔ ∀ cell ∈ cells, cell ≠ Cell.zero := by
  refine ⟨?_, clearedBoard_wf s.board hwf, rfl, ?_⟩
  · rw [clearRows_spec s hwf.1]
    rfl
  · intro cells
    simp [rowFull, Cell.neZero]

theorem C1_witness :
    WFBoard sampleState.board ∧
    ((clearRows sampleState).map State.board = some (clearedBoard sampleState.board) ∧
      WFBoard (clearedBoard sampleState.board) ∧
      clearedBoard sampleState.board =
        List.replicate (sampleState.board.countP rowFull) (List.replicate COLUMNS Cell.zero) ++
          sampleState.board.filter (fun cells => !rowFull cells) ∧
      ∀ cells, rowFull cells = true ↔ ∀ cell ∈ cells, cell ≠ Cell.zero) :=
  ⟨by decide, C1_clearRows_removes_exactly_full_rows sampleState (by decide)⟩

/-- C2: on a 20x10 board, for every piece position, candidate shape and offset
`(dx, dy)`, `checkCollision` returns, and returns `true` exactly when some
occupied cell `(r, c)` of the candidate shape has its column `x + c + dx` outside
`[0, COLUMNS)`, or its row `y + r + dy` at `ROWS` or more, or its row in
`[0, ROWS)` on a board cell that is not empty. In particular an occupied cell
with a column out of range makes it return `true` whatever its row, and at a cell
at a row below `0` with a column in range the loop body goes on without
returning. The function only returns a Boolean: board and piece are arguments it
cannot change. -/
theorem C2_checkCollision_characterisation (board : Board) (hwf : WFBoard board)
    (piece : Piece) (dx dy : Int) (newShape : Option Shape) :
    (checkCollision board piece dx dy newShape = some true ↔
      ∃ r c, Occupied (newShape.getD piece.shape) r c ∧
        ((piece.x + c + dx < 0 ∨ (COLUMNS : Int) ≤ piece.x + c + dx) ∨
          (ROWS : Int) ≤ piece.y + r + dy ∨
          (0 ≤ piece.y + r + dy ∧ piece.y + r + dy < ROWS ∧
            ∃ cell, cellAt board (piece.y + r + dy) (piece.x + c + dx) = some cell ∧
              cell ≠ Cell.zero))) ∧
    (checkCollision board piece dx dy newShape = some true ∨
      checkCollision board piece dx dy newShape = some false) ∧
    (∀ r c, Occupied (newShape.getD piece.shape) r c →
      (piece.x + c + dx < 0 ∨ (COLUMNS : Int) ≤ piece.x + c + dx) →
      checkCollision board piece dx dy newShape = some true) ∧
    (∀ (r c : Nat) (v : Val), piece.y + r + dy < 0 → 0 ≤ piece.x + c + dx →
      piece.x + c + dx < COLUMNS → checkCell board piece dx dy r c v = some false) := by
  have htrue := checkCollision_true_iff board hwf piece dx dy newShape
  refine ⟨htrue, ?_, ?_, ?_⟩
  · obtain ⟨b, hb⟩ := checkCollision_total board hwf piece dx dy newShape
    cases b
    · exact Or.inr hb
    · exact Or.inl hb
  · intro r c hocc hcol
    exact htrue.mpr ⟨r, c, hocc, Or.inl hcol⟩
  · intro r c v hrow hc1 hc2
    unfold checkCell
    split
    · rw [if_neg (by omega), if_pos hrow]
    · rfl

theorem C2_witness :
    WFBoard sampleBoard ∧
    ((checkCollision sampleBoard samplePiece 0 0 none = some true ↔
      ∃ r c, Occupied ((none : Option Shape).getD samplePiece.shape) r c ∧
        ((samplePiece.x + c + 0 < 0 ∨ (COLUMNS : Int) ≤ samplePiece.x + c + 0) ∨
          (ROWS : Int) ≤ samplePiece.y + r + 0 ∨
          (0 ≤ samplePiece.y + r + 0 ∧ samplePiece.y + r + 0 < ROWS ∧
            ∃ cell, cellAt sampleBoard (samplePiece.y + r + 0) (samplePiece.x + c + 0) = some cell ∧
              cell ≠ Cell.zero))) ∧
    (checkCollision sampleBoard samplePiece 0 0 none = some true ∨
      checkCollision sampleBoard samplePiece 0 0 none = some false) ∧
    (∀ r c, Occupied ((none : Option Shape).getD samplePiece.shape) r c →
      (samplePiece.x + c + 0 < 0 ∨ (COLUMNS : Int) ≤ samplePiece.x + c + 0) →
      checkCollision sampleBoard samplePiece 0 0 none = some true) ∧
    (∀ (r c : Nat) (v : Val), samplePiece.y + r + 0 < 0 → 0 ≤ samplePiece.x + c + 0 →
      samplePiece.x + c + 0 < COLUMNS →
      checkCell sampleBoard samplePiece 0 0 r c v = some false)) :=
  ⟨by decide, C2_checkCollision_characterisation sampleBoard (by decide) samplePiece 0 0 none⟩

/-- C3: for every rectangular shape matrix with `H ≥ 1` rows and `W` columns, the
candidate shape computed by `rotatePiece` exists, has `W` rows and `H` columns,
and is the clockwise quarter turn of the original: its entry at `(i, j)` is the
original entry at `(H - 1 - j, i)`. -/
theorem C3_rotateShape_is_clockwise_turn (shape : Shape) (H W : Nat) (hH : 0 < H)
    (hlen : shape.length = H) (hrect : ∀ cells ∈ shape, cells.length = W) :
    ∃ ns, rotateShape shape = some ns ∧ ns.length = W ∧ (∀ cells ∈ ns, cells.length = H) ∧
      ∀ i j, i < W → j < H → entryAt ns i j = entryAt shape (H - 1 - j) i := by
  have h0 : 0 < shape.length := by omega
  have hfirst : shape[0]? = some shape[0] := List.getElem?_eq_getElem h0
  have hW : (shape[0]).length = W := hrect _ (List.getElem_mem _)
  obtain ⟨ns, hns, hnlen, hnrows⟩ := rotateShape_dims shape H W hH hlen hrect
  refine ⟨ns, hns, hnlen, hnrows, ?_⟩
  rw [rotateShape_eq shape _ hfirst] at hns
  cases hns
  intro i j hi hj
  have hj1 : H - 1 - j < shape.length := by omega
  have hrow : (shape[H - 1 - j]).length = W := hrect _ (List.getElem_mem _)
  simp only [entryAt, hW]
  rw [List.getElem?_map, List.getElem?_range hi]
  simp only [Option.map_some', Option.some_bind]
  rw [List.getElem?_reverse (by simpa [hlen] using hj)]
  simp only [List.length_map, hlen, List.getElem?_map]
  rw [List.getElem?_eq_getElem hj1]
  simp only [Option.map_some', Option.some_bind]
  rw [List.getD_eq_getElem?_getD, List.getElem?_eq_getElem (by omega)]
  simp

theorem C3_witness :
    0 < 2 ∧ shapeT.length = 2 ∧ (∀ cells ∈ shapeT, cells.length = 3) ∧
    ∃ ns, rotateShape shapeT = some ns ∧ ns.length = 3 ∧ (∀ cells ∈ ns, cells.length = 2) ∧
      ∀ i j, i < 3 → j < 2 → entryAt ns i j = entryAt shapeT (2 - 1 - j) i :=
  ⟨by decide, by decide, by decide,
    C3_rotateShape_is_clockwise_turn shapeT 2 3 (by decide) (by decide) (by decide)⟩

/-- C4: in every reachable state in which the game is not over there is an active
piece, `checkCollision(currentPiece, 0, 0)` is `false`, and every occupied cell of
the piece maps to a column in `[0, COLUMNS)`, to a row below `ROWS`, and to an
empty board cell whenever its row is `0` or more. -/
theorem C4_active_piece_never_overlaps (s : State) (h : Reachable s)
    (hover : s.gameOver = false) :
    ∃ p, s.currentPiece = some p ∧ checkCollision s.board p 0 0 none = some false ∧
      ∀ r c, Occupied p.shape r c →
        0 ≤ p.x + (c : Int) ∧ p.x + (c : Int) < COLUMNS ∧ p.y + (r : Int) < ROWS ∧
        (0 ≤ p.y + (r : Int) → cellAt s.board (p.y + r) (p.x + c) = some Cell.zero) := by
  have hinv := reachable_inv s h
  obtain ⟨p, q, hp, _, _, _, hfree⟩ := hinv.active hover
  refine ⟨p, hp, hfree, ?_⟩
  intro r c hocc
  have hnc := (checkCollision_false_iff s.board hinv.board_wf p 0 0 none).mp hfree
  exact free_cell s.board hinv.board_wf p hnc r c hocc

theorem C4_witness :
    Reachable demoPlay ∧ demoPlay.gameOver = false ∧
    ∃ p, demoPlay.currentPiece = some p ∧
      checkCollision demoPlay.board p 0 0 none = some false ∧
      ∀ r c, Occupied p.shape r c →
        0 ≤ p.x + (c : Int) ∧ p.x + (c : Int) < COLUMNS ∧ p.y + (r : Int) < ROWS ∧
        (0 ≤ p.y + (r : Int) → cellAt demoPlay.board (p.y + r) (p.x + c) = some Cell.zero) :=
  ⟨reachable_demoPlay, by decide!,
    C4_active_piece_never_overlaps demoPlay reachable_demoPlay (by decide!)⟩

/-- C5: in every reachable Running state in which a tick finds the active piece
blocked from moving down, the tick is `lockPiece`: it writes the piece's colour
into exactly the board cells `(y + r, x + c)` of the occupied shape cells
`(r, c)`, each of which is inside the 20x10 board (row `0` or more included) and
was empty before the write, and no other board cell differs when `clearRows` and
then `spawnNewPiece` run on the written board. -/
theorem C5_lock_writes_exactly_the_piece_cells (s : State) (h : Reachable s)
    (hover : s.gameOver = false) (hpaused : s.gamePaused = false) (p : Piece)
    (hp : s.currentPiece = some p)
    (hblocked : checkCollision s.board p 0 1 none = some true) (r1 r2 : Fin 7) :
    ∃ b, writePiece s.board p = some b ∧ WFBoard b ∧
      gameLoop s r1 r2 =
        ((clearRows { s with board := b }).bind fun s1 => spawnNewPiece s1 r1 r2) ∧
      (∀ r c, Occupied p.shape r c →
        0 ≤ p.y + (r : Int) ∧ p.y + (r : Int) < ROWS ∧
        0 ≤ p.x + (c : Int) ∧ p.x + (c : Int) < COLUMNS ∧
        cellAt s.board (p.y + r) (p.x + c) = some Cell.zero ∧
        cellAt b (p.y + r) (p.x + c) = some (Cell.color p.color)) ∧
      (∀ i j, (¬ ∃ r c, Occupied p.shape r c ∧ i = p.y + (r : Int) ∧ j = p.x + (c : Int)) →
        cellAt b i j = cellAt s.board i j) := by
  have hinv := reachable_inv s h
  obtain ⟨p1, q, hp1, _, hgood, hy, hfree⟩ := hinv.active hover
  rw [hp] at hp1
  cases hp1
  have hnc := (checkCollision_false_iff s.board hinv.board_wf p 0 0 none).mp hfree
  obtain ⟨b, hb, hwfb, hset, hkeep⟩ := writePiece_spec s.board hinv.board_wf p hy hnc
  refine ⟨b, hb, hwfb, ?_, ?_, ?_⟩
  · rw [gameLoop_eq s r1 r2 p true hover hpaused hp hblocked]
    exact lockPiece_unfold s r1 r2 p b hp hb
  · intro r c hocc
    obtain ⟨h1, h2, h3, h4⟩ := free_cell s.board hinv.board_wf p hnc r c hocc
    have h0 : 0 ≤ p.y + (r : Int) := by omega
    exact ⟨h0, h3, h1, h2, h4 h0,
      hset r c ((occupied_iff_filled p.shape hgood r c).mp hocc)⟩
  · intro i j hij
    apply hkeep
    intro r c hf hh
    exact hij ⟨r, c, filled_occupied hf, hh.1, hh.2⟩

theorem C5_witness :
    Reachable demoBottom ∧ demoBottom.gameOver = false ∧ demoBottom.gamePaused = false ∧
    demoBottom.currentPiece =
      some { shape := [[1, 1, 1, 1]], color := 0x00ffff, x := 3, y := 19 } ∧
    checkCollision demoBottom.board
      { shape := [[1, 1, 1, 1]], color := 0x00ffff, x := 3, y := 19 } 0 1 none = some true ∧
    ∃ b, writePiece demoBottom.board
        { shape := [[1, 1, 1, 1]], color := 0x00ffff, x := 3, y := 19 } = some b ∧
      WFBoard b ∧
      gameLoop demoBottom 2 6 =
        ((clearRows { demoBottom with board := b }).bind fun s1 => spawnNewPiece s1 2 6) ∧
      (∀ r c, Occupied [[1, 1, 1, 1]] r c →
        0 ≤ (19 : Int) + (r : Int) ∧ (19 : Int) + (r : Int) < ROWS ∧
        0 ≤ (3 : Int) + (c : Int) ∧ (3 : Int) + (c : Int) < COLUMNS ∧
        cellAt demoBottom.board (19 + r) (3 + c) = some Cell.zero ∧
        cellAt b (19 + r) (3 + c) = some (Cell.color 0x00ffff)) ∧
      (∀ i j, (¬ ∃ r c, Occupied [[1, 1, 1, 1]] r c ∧ i = (19 : Int) + (r : Int) ∧
          j = (3 : Int) + (c : Int)) →
        cellAt b i j = cellAt demoBottom.board i j) :=
  ⟨reachable_demoBottom, by decide!, by decide!, by decide!, by decide!,
    C5_lock_writes_exactly_the_piece_cells demoBottom reachable_demoBottom (by decide!)
      (by decide!) { shape := [[1, 1, 1, 1]], color := 0x00ffff, x := 3, y := 19 }
      (by decide!) (by decide!) 2 6⟩

/-- C6 (the claim as stated fails): `bigScoreState` is a reachable Running state
with score 36028797018963960 whose active O piece is blocked and, once written,
completes exactly 2 rows; the tick that locks it leaves the score
36028797018963984, an increase of 24 and not of 20, because the doubles from
`2^55` on are spaced by 8 and the sum 36028797018963980 is rounded. -/
theorem C6_counterexample :
    Reachable bigScoreState ∧ bigScoreState.gameOver = false ∧
    bigScoreState.gamePaused = false ∧
    bigScoreState.currentPiece =
      some { shape := [[1, 1], [1, 1]], color := 0xffff00, x := 8, y := 18 } ∧
    checkCollision bigScoreState.board
      { shape := [[1, 1], [1, 1]], color := 0xffff00, x := 8, y := 18 } 0 1 none = some true ∧
    (writePiece bigScoreState.board
        { shape := [[1, 1], [1, 1]], color := 0xffff00, x := 8, y := 18 }).map
      (List.countP rowFull) = some 2 ∧
    bigScoreState.score = Num.fin 36028797018963960 ∧
    (gameLoop bigScoreState 1 1).map State.score = some (Num.fin 36028797018963984) ∧
    36028797018963984 ≠ 36028797018963960 + 20 :=
  ⟨reachable_bigScoreState, by decide!, by decide!, by decide!, by decide!, by decide!,
    by decide!, by decide!, by decide⟩

/-- C6 (amended): for every reachable Running state, a tick that locks the active
piece (the piece is blocked from moving down) sets the score to the JavaScript
sum of the score and 10 times the number `k` of rows that are full after the
piece's cells are written (no addition when `k = 0`); this is an increase of
exactly `10 * k` whenever the score plus `10 * k` does not exceed `2^53`: in that
range a lock completing exactly 2 rows adds exactly 20, and a lock completing no
row leaves the score unchanged at every score. -/
theorem C6_lock_adds_ten_per_completed_row (s : State) (h : Reachable s)
    (hover : s.gameOver = false) (hpaused : s.gamePaused = false) (p : Piece)
    (hp : s.currentPiece = some p)
    (hblocked : checkCollision s.board p 0 1 none = some true) (r1 r2 : Fin 7) :
    ∃ b s1, writePiece s.board p = some b ∧ gameLoop s r1 r2 = some s1 ∧
      s1.score = scoreAfter s.score (b.countP rowFull) ∧
      (∀ n, s.score = Num.fin n → n + 10 * b.countP rowFull ≤ 2 ^ 53 →
        s1.score = Num.fin (n + 10 * b.countP rowFull)) ∧
      (∀ n, s.score = Num.fin n → b.countP rowFull = 2 → n + 20 ≤ 2 ^ 53 →
        s1.score = Num.fin (n + 20)) ∧
      (b.countP rowFull = 0 → s1.score = s.score) := by
  have hinv := reachable_inv s h
  obtain ⟨p1, q, b, nxt, hit, hp1, _, hb, _, _, _, heq, _⟩ :=
    lockPiece_spec s hinv hover hpaused r1 r2
  rw [hp] at hp1
  cases hp1
  have hloop := gameLoop_eq s r1 r2 p true hover hpaused hp hblocked
  simp only [if_true] at hloop
  have hscore : (if hit then endGame (lockedState s b q nxt) else lockedState s b q nxt).score
      = scoreAfter s.score (b.countP rowFull) := by
    cases hit with
    | true =>
      simp only [if_true]
      rw [(endGame_fields _).2.1]
      rfl
    | false => rfl
  refine ⟨b, _, hb, hloop.trans heq, hscore, ?_, ?_, ?_⟩
  · intro n hn hbound
    rw [hscore, hn]
    exact scoreAfter_exact n _ hbound
  · intro n hn h2 hbound
    rw [hscore, hn, h2]
    exact scoreAfter_exact n 2 hbound
  · intro h0
    rw [hscore, h0]
    rfl

theorem C6_witness :
    Reachable demoTwoRows ∧ demoTwoRows.gameOver = false ∧ demoTwoRows.gamePaused = false ∧
    demoTwoRows.currentPiece =
      some { shape := [[1, 1], [1, 1]], color := 0xffff00, x := 8, y := 18 } ∧
    checkCollision demoTwoRows.board
      { shape := [[1, 1], [1, 1]], color := 0xffff00, x := 8, y := 18 } 0 1 none = some true ∧
    ∃ b s1, writePiece demoTwoRows.board
        { shape := [[1, 1], [1, 1]], color := 0xffff00, x := 8, y := 18 } = some b ∧
      gameLoop demoTwoRows 3 5 = some s1 ∧
      s1.score = scoreAfter demoTwoRows.score (b.countP rowFull) ∧
      (∀ n, demoTwoRows.score = Num.fin n → n + 10 * b.countP rowFull ≤ 2 ^ 53 →
        s1.score = Num.fin (n + 10 * b.countP rowFull)) ∧
      (∀ n, demoTwoRows.score = Num.fin n → b.countP rowFull = 2 → n + 20 ≤ 2 ^ 53 →
        s1.score = Num.fin (n + 20)) ∧
      (b.countP rowFull = 0 → s1.score = demoTwoRows.score) :=
  ⟨reachable_demoTwoRows, by decide!, by decide!, by decide!, by decide!,
    C6_lock_adds_ten_per_completed_row demoTwoRows reachable_demoTwoRows (by decide!)
      (by decide!) { shape := [[1, 1], [1, 1]], color := 0xffff00, x := 8, y := 18 }
      (by decide!) (by decide!) 3 5⟩

/-- C7: in every reachable state a tick completes, and it ends the game (the game
was not over and `gameOver` is set) exactly when the game was running, the active
piece was blocked from moving down, was written to the board, and the piece then
taken from the buffer collides at its spawn position with the board left by
`clearRows`; and when the game is over a tick leaves the whole state unchanged,
board, score and pieces included. -/
theorem C7_tick_ends_game_iff_spawn_collides (s : State) (h : Reachable s) (r1 r2 : Fin 7) :
    ∃ s1, gameLoop s r1 r2 = some s1 ∧
      ((s.gameOver = false ∧ s1.gameOver = true) ↔
        (s.gameOver = false ∧ s.gamePaused = false ∧
          ∃ p q b, s.currentPiece = some p ∧ s.nextPiece = some q ∧
            checkCollision s.board p 0 1 none = some true ∧
            writePiece s.board p = some b ∧
            checkCollision (clearedBoard b) q 0 0 none = some true)) ∧
      (s.gameOver = true → s1 = s) := by
  have hinv := reachable_inv s h
  by_cases hg : (s.gameOver || s.gamePaused) = true
  · refine ⟨s, gameLoop_idle s r1 r2 hg, ?_, fun _ => rfl⟩
    simp only [Bool.or_eq_true] at hg
    constructor
    · rintro ⟨h1, h2⟩
      rw [h1] at h2
      cases h2
    · rintro ⟨h1, h2, _⟩
      rcases hg with hg | hg
      · rw [h1] at hg; cases hg
      · rw [h2] at hg; cases hg
  · simp only [Bool.or_eq_true, not_or, Bool.not_eq_true] at hg
    obtain ⟨hover, hpaused⟩ := hg
    obtain ⟨p, q, b, nxt, hit1, hp, hq, hb, _, _, hhit1, heq, _⟩ :=
      lockPiece_spec s hinv hover hpaused r1 r2
    obtain ⟨hit, hhit⟩ := checkCollision_total s.board hinv.board_wf p 0 1 none
    have hloop := gameLoop_eq s r1 r2 p hit hover hpaused hp hhit
    cases hit with
    | false =>
      refine ⟨movedState s p 0 1, hloop, ?_, ?_⟩
      · constructor
        · rintro ⟨_, h2⟩
          have : (movedState s p 0 1).gameOver = s.gameOver := rfl
          rw [this, hover] at h2
          cases h2
        · rintro ⟨_, _, p1, _, _, hp1, _, hbl, _⟩
          rw [hp] at hp1
          cases hp1
          rw [hhit] at hbl
          cases hbl
      · intro h1
        rw [hover] at h1
        cases h1
    | true =>
      simp only [if_true] at hloop
      refine ⟨_, hloop.trans heq, ?_, ?_⟩
      · constructor
        · rintro ⟨_, h2⟩
          refine ⟨hover, hpaused, p, q, b, hp, hq, hhit, hb, ?_⟩
          cases hit1 with
          | true => exact hhit1
          | false =>
            have : (lockedState s b q nxt).gameOver = s.gameOver := rfl
            simp only [Bool.false_eq_true, if_false] at h2
            rw [this, hover] at h2
            cases h2
        · rintro ⟨_, _, p1, q1, b1, hp1, hq1, _, hb1, hc1⟩
          rw [hp] at hp1
          cases hp1
          rw [hq] at hq1
          cases hq1
          rw [hb] at hb1
          cases hb1
          rw [hhit1] at hc1
          cases hc1
          exact ⟨hover, (endGame_fields _).1⟩
      · intro h1
        rw [hover] at h1
        cases h1

theorem C7_witness :
    Reachable demoTower ∧
    ∃ s1, gameLoop demoTower 0 0 = some s1 ∧
      ((demoTower.gameOver = false ∧ s1.gameOver = true) ↔
        (demoTower.gameOver = false ∧ demoTower.gamePaused = false ∧
          ∃ p q b, demoTower.currentPiece = some p ∧ demoTower.nextPiece = some q ∧
            checkCollision demoTower.board p 0 1 none = some true ∧
            writePiece demoTower.board p = some b ∧
            checkCollision (clearedBoard b) q 0 0 none = some true)) ∧
      (demoTower.gameOver = true → s1 = demoTower) :=
  ⟨reachable_demoTower,
    C7_tick_ends_game_iff_spawn_collides demoTower reachable_demoTower 0 0⟩

/-- While the game is not over `restartGame` only runs `clearInterval`: `startGame`
returns at its guard `if (!gameOver) return`. -/
theorem restartGame_not_over (s : State) (r1 r2 : Fin 7) (hover : s.gameOver = false) :
    restartGame s r1 r2 = some (clearInterval s) := by
  unfold restartGame
  apply startGame_running
  rw [clearInterval_eq]
  exact hover

/-- C8 (the code at the failing input): `demoScored` is a reachable Running state
with 20 points, a board that is not empty and one armed tick; `restartGame`
leaves the score, the board and the pieces as they are and only disarms the
tick, so the game is Running with no tick at all. -/
theorem C8_restart_while_running_only_disarms_tick :
    Reachable demoScored ∧ demoScored.gameOver = false ∧ demoScored.gamePaused = false ∧
    demoScored.score = 20 ∧ demoScored.board ≠ emptyBoard ∧ demoScored.timers = [1] ∧
    restartGame demoScored 0 0 = some { demoScored with timers := [] } :=
  ⟨reachable_demoScored, by decide!, by decide!, by decide!, by decide!, by decide!,
    by decide!⟩

/-- C9: from a reachable state in which the game is over (Idle or GameOver), for
every choice of the random pieces, `startGame` yields a Running state (neither
over nor paused) with score 0, every board cell empty, one armed tick, an active
piece at its spawn position (a fresh `createPiece` result) that does not collide,
and a next piece in the buffer; from a state in which the game is not over,
`startGame` changes nothing. -/
theorem C9_startGame_starts_fresh_game (s : State) (h : Reachable s) (r1 r2 : Fin 7) :
    (s.gameOver = true →
      ∃ s1 p q, startGame s r1 r2 = some s1 ∧ s1.gameOver = false ∧ s1.gamePaused = false ∧
        s1.score = 0 ∧ WFBoard s1.board ∧
        (∀ cells ∈ s1.board, ∀ cell ∈ cells, cell = Cell.zero) ∧
        s1.currentPiece = some p ∧ (∃ i, createPiece i = some p) ∧
        checkCollision s1.board p 0 0 none = some false ∧
        s1.nextPiece = some q ∧ createPiece r2 = some q ∧ s1.timers.length = 1) ∧
    (s.gameOver = false → startGame s r1 r2 = some s) := by
  have hinv := reachable_inv s h
  refine ⟨?_, startGame_running s r1 r2⟩
  intro hover
  obtain ⟨cur, nxt, _, hnxt, hi, hfree, heq, _⟩ := startGame_spec s hinv hover r1 r2
  have ht : s.timers = [] := by
    rcases hinv.timers_one with h1 | ⟨h2, _⟩
    · exact h1
    · rw [hover] at h2; cases h2
  refine ⟨startedState s cur nxt, cur, nxt, heq, rfl, hinv.not_both hover, rfl, emptyBoard_wf,
    ?_, rfl, hi, hfree, rfl, hnxt, ?_⟩
  · show ∀ cells ∈ emptyBoard, ∀ cell ∈ cells, cell = Cell.zero
    decide
  · show (s.nextId :: s.timers).length = 1
    rw [ht]
    rfl

theorem C9_witness :
    Reachable init ∧
    ((init.gameOver = true →
      ∃ s1 p q, startGame init 6 2 = some s1 ∧ s1.gameOver = false ∧ s1.gamePaused = false ∧
        s1.score = 0 ∧ WFBoard s1.board ∧
        (∀ cells ∈ s1.board, ∀ cell ∈ cells, cell = Cell.zero) ∧
        s1.currentPiece = some p ∧ (∃ i, createPiece i = some p) ∧
        checkCollision s1.board p 0 0 none = some false ∧
        s1.nextPiece = some q ∧ createPiece 2 = some q ∧ s1.timers.length = 1) ∧
    (init.gameOver = false → startGame init 6 2 = some init)) :=
  ⟨Reachable.init, C9_startGame_starts_fresh_game init Reachable.init 6 2⟩

/-- C10: in a reachable Running state, each of move-left, move-right and soft-drop
(arrow key or button) with its offset `(-1, 0)`, `(1, 0)`, `(0, 1)` changes the
position of the active piece by that offset exactly when `checkCollision` reports
no collision for it, nothing else of the state changing (board, score, shape and
colour included); otherwise the whole state is unchanged, so the rejected move
repeated any number of times is still a no-op, and a blocked soft-drop does not
lock the piece. -/
theorem C10_move_commits_iff_no_collision (s : State) (h : Reachable s)
    (hover : s.gameOver = false) (hpaused : s.gamePaused = false) :
    ∃ p, s.currentPiece = some p ∧
      ∀ e dx dy, (e, dx, dy) ∈ moveCommands →
        ∃ hit, checkCollision s.board p dx dy none = some hit ∧
          (hit = false → step s e =
            some { s with currentPiece := some { p with x := p.x + dx, y := p.y + dy } }) ∧
          (hit = true → step s e = some s ∧ ∀ n, run s (List.replicate n e) = some s) := by
  have hinv := reachable_inv s h
  obtain ⟨p, _, hp, _⟩ := hinv.active hover
  refine ⟨p, hp, ?_⟩
  intro e dx dy hmem
  obtain ⟨hstep, hdy, hen⟩ := moveCommands_step s hover hpaused e dx dy hmem
  obtain ⟨p1, hit, hp1, hhit, heq, _⟩ := tryMove_spec s hinv hover dx dy hdy
  rw [hp] at hp1
  cases hp1
  refine ⟨hit, hhit, ?_, ?_⟩
  · intro hf
    rw [hstep, heq, hf]
    rfl
  · intro ht
    have hs : step s e = some s := by
      rw [hstep, heq, ht]
      rfl
    exact ⟨hs, run_replicate_fixed s e hen hs⟩

theorem C10_witness :
    Reachable demoPlay ∧ demoPlay.gameOver = false ∧ demoPlay.gamePaused = false ∧
    ∃ p, demoPlay.currentPiece = some p ∧
      ∀ e dx dy, (e, dx, dy) ∈ moveCommands →
        ∃ hit, checkCollision demoPlay.board p dx dy none = some hit ∧
          (hit = false → step demoPlay e =
            some { demoPlay with
                   currentPiece := some { p with x := p.x + dx, y := p.y + dy } }) ∧
          (hit = true → step demoPlay e = some demoPlay ∧
            ∀ n, run demoPlay (List.replicate n e) = some demoPlay) :=
  ⟨reachable_demoPlay, by decide!, by decide!,
    C10_move_commits_iff_no_collision demoPlay reachable_demoPlay (by decide!) (by decide!)⟩

/-! ### Lemmas for rotation, pause and the loop bound -/

theorem reachable_demoPaused : Reachable demoPaused :=
  reachable_run init demoPaused pausedEvents Reachable.init (by decide!)

theorem tryMove_guarded (s : State) (h : (s.gameOver || s.gamePaused) = true) (dx dy : Int) :
    (if !s.gameOver && !s.gamePaused then tryMove s dx dy else some s) = some s := by
  rw [if_neg]
  simp only [Bool.or_eq_true] at h
  rcases h with h | h <;> simp [h]

/-- In a reachable Running state `pauseGame` sets the flag and disarms the tick. -/
theorem pauseGame_running (s : State) (h : Inv s) (hover : s.gameOver = false)
    (hpaused : s.gamePaused = false) :
    pauseGame s = { s with gamePaused := true, timers := [] } := by
  have ht : (clearInterval { s with gamePaused := true }).timers = [] := by
    apply clearInterval_timers
    rcases h.timers_one with h1 | ⟨_, _, id, h2, h3⟩
    · exact Or.inl h1
    · exact Or.inr ⟨id, h2, h3⟩
  unfold pauseGame
  rw [if_neg (by simp [hover]), if_neg (by simp [hpaused]), clearInterval_eq, ht]

/-- The loop of `clearRows` does not end before it has run once for each row of
`top` and once more for each full row of `top`. -/
theorem clearRowsLoop_short (fuel : Nat) : ∀ (top bottom : Board) (k : Nat),
    fuel < top.length + top.countP rowFull →
    clearRowsLoop fuel (top ++ bottom) ((top.length : Int) - 1) k = none := by
  induction fuel with
  | zero =>
    intro top bottom k h
    have hpos : 0 < top.length := by
      rcases Nat.eq_zero_or_pos top.length with h0 | h0
      · have : top = [] := List.length_eq_zero.mp h0
        subst this
        simp at h
      · exact h0
    rw [clearRowsLoop_zero_fuel, if_neg (by omega)]
  | succ fuel ih =>
    intro top bottom k h
    rcases List.eq_nil_or_concat top with h0 | ⟨front, last, h0⟩
    · subst h0
      simp at h
    · rw [List.concat_eq_append] at h0
      subst h0
      have hrow : ((front ++ [last]).length : Int) - 1 = (front.length : Int) := by
        simp
      rw [hrow, clearRowsLoop_succ _ _ _ _ (by omega)]
      have hget : (front ++ [last] ++ bottom)[(front.length : Int).toNat]? = some last := by
        simpa using getElem?_middle front bottom last
      rw [hget]
      simp only
      by_cases hf : rowFull last = true
      · rw [if_pos hf]
        have her : (front ++ [last] ++ bottom).eraseIdx (front.length : Int).toNat
            = front ++ bottom := by
          simpa using eraseIdx_middle front bottom last
        rw [her]
        have hlen : (front.length : Int) = (((emptyRow :: front).length : Nat) : Int) - 1 := by
          simp
        have := ih (emptyRow :: front) bottom (k + 1) (by
          simp [List.countP_cons, emptyRow_not_full, hf] at h ⊢
          omega)
        rw [hlen]
        rw [show emptyRow :: (front ++ bottom) = (emptyRow :: front) ++ bottom by rfl, this]
      · rw [if_neg hf]
        have := ih front ([last] ++ bottom) k (by
          simp [List.countP_cons, hf] at h ⊢
          omega)
        simp only [List.append_assoc] at this ⊢
        rw [this]


/-- C11: in a reachable Running state `rotatePiece` (rotate button or ArrowUp)
replaces the shape of the active piece by the rotated shape exactly when
`checkCollision(piece, 0, 0, rotatedShape)` is `false`, that single test deciding
the outcome (no other offset is tried); otherwise the whole state is unchanged;
in both cases the piece's `x`, `y` and colour, the board, the score and the next
piece are unchanged. -/
theorem C11_rotation_commits_iff_no_collision (s : State) (h : Reachable s)
    (hover : s.gameOver = false) (hpaused : s.gamePaused = false) :
    ∃ p ns hit, s.currentPiece = some p ∧ rotateShape p.shape = some ns ∧
      checkCollision s.board p 0 0 (some ns) = some hit ∧
      (hit = false →
        rotatePiece s = some { s with currentPiece := some { p with shape := ns } }) ∧
      (hit = true → rotatePiece s = some s) ∧
      step s Event.rotateClick = rotatePiece s ∧
      step s (Event.keydown Key.ArrowUp) = rotatePiece s := by
  have hinv := reachable_inv s h
  obtain ⟨p, ns, hit, hp, hns, hhit, heq, _⟩ := rotatePiece_spec s hinv hover hpaused
  refine ⟨p, ns, hit, hp, hns, hhit, ?_, ?_, rfl, ?_⟩
  · intro hf
    rw [heq, hf]
    rfl
  · intro ht
    rw [heq, ht]
    rfl
  · show keydown s Key.ArrowUp = rotatePiece s
    unfold keydown
    rw [if_neg (by simp [hover, hpaused])]

theorem C11_witness :
    Reachable demoPlay ∧ demoPlay.gameOver = false ∧ demoPlay.gamePaused = false ∧
    ∃ p ns hit, demoPlay.currentPiece = some p ∧ rotateShape p.shape = some ns ∧
      checkCollision demoPlay.board p 0 0 (some ns) = some hit ∧
      (hit = false →
        rotatePiece demoPlay =
          some { demoPlay with currentPiece := some { p with shape := ns } }) ∧
      (hit = true → rotatePiece demoPlay = some demoPlay) ∧
      step demoPlay Event.rotateClick = rotatePiece demoPlay ∧
      step demoPlay (Event.keydown Key.ArrowUp) = rotatePiece demoPlay :=
  ⟨reachable_demoPlay, by decide!, by decide!,
    C11_rotation_commits_iff_no_collision demoPlay reachable_demoPlay (by decide!)
      (by decide!)⟩

/-- C12: in every state that is not Running (the game is over, as in Idle and
GameOver, or paused), each event carrying one of the commands rotate, move-left,
move-right and soft-drop, through every input path (the `keydown` listener, the
four buttons, the touch listeners of the swipes), leaves the whole state
unchanged, the active piece, the board and the score included. -/
theorem C12_commands_ignored_unless_running (s : State)
    (h : (s.gameOver || s.gamePaused) = true) (e : Event) (he : isInput e = true) :
    step s e = some s ∧ rotatePiece s = some s := by
  refine ⟨?_, rotatePiece_idle s h⟩
  cases e with
  | startClick r1 r2 => cases he
  | pauseClick => cases he
  | restartClick r1 r2 => cases he
  | tick r1 r2 => cases he
  | keydown key =>
    show keydown s key = some s
    unfold keydown
    rw [if_pos h]
  | leftClick => exact tryMove_guarded s h (-1) 0
  | rightClick => exact tryMove_guarded s h 1 0
  | rotateClick => exact rotatePiece_idle s h
  | downClick => exact tryMove_guarded s h 0 1
  | touchstart x y =>
    show some (touchstart s x y) = some s
    unfold touchstart
    rw [if_pos h]
  | touchend x y =>
    show touchend s x y = some s
    unfold touchend
    rw [if_pos h]

theorem C12_witness :
    (demoPaused.gameOver || demoPaused.gamePaused) = true ∧
    isInput (Event.touchend 10 90) = true ∧
    (step demoPaused (Event.touchend 10 90) = some demoPaused ∧
      rotatePiece demoPaused = some demoPaused) :=
  ⟨by decide!, by decide,
    C12_commands_ignored_unless_running demoPaused (by decide!) (Event.touchend 10 90)
      (by decide)⟩

/-- C13: in a reachable Running state `pauseGame` only sets the paused flag and
disarms the tick, leaving board, active piece, next piece and score unchanged;
while Paused a tick changes nothing; and a second `pauseGame` returns to Running
with the same board, pieces and score as before the first pause: the two calls
change nothing but the timer, of which one fresh registration is armed. -/
theorem C13_pause_twice_keeps_engine_state (s : State) (h : Reachable s)
    (hover : s.gameOver = false) (hpaused : s.gamePaused = false) (r1 r2 : Fin 7) :
    pauseGame s = { s with gamePaused := true, timers := [] } ∧
    gameLoop (pauseGame s) r1 r2 = some (pauseGame s) ∧
    pauseGame (pauseGame s) =
      { s with gameInterval := some s.nextId, timers := [s.nextId],
               nextId := s.nextId + 1 } := by
  have hinv := reachable_inv s h
  have h1 := pauseGame_running s hinv hover hpaused
  refine ⟨h1, ?_, ?_⟩
  · apply gameLoop_idle
    rw [h1]
    simp
  · rw [h1]
    obtain ⟨_, _, over, paused, _, _, _, _, _, _, _, _, _⟩ := s
    simp only at hover hpaused
    subst hover
    subst hpaused
    rfl

theorem C13_witness :
    Reachable demoPlay ∧ demoPlay.gameOver = false ∧ demoPlay.gamePaused = false ∧
    (pauseGame demoPlay = { demoPlay with gamePaused := true, timers := [] } ∧
    gameLoop (pauseGame demoPlay) 3 4 = some (pauseGame demoPlay) ∧
    pauseGame (pauseGame demoPlay) =
      { demoPlay with gameInterval := some demoPlay.nextId, timers := [demoPlay.nextId],
                      nextId := demoPlay.nextId + 1 }) :=
  ⟨reachable_demoPlay, by decide!, by decide!,
    C13_pause_twice_keeps_engine_state demoPlay reachable_demoPlay (by decide!) (by decide!)
      3 4⟩

/-- C14: with the timer modelled as the list of armed interval registrations, in
every reachable state at most one registration is armed (ticks that end the game
included): no two tick streams ever run at once. -/
theorem C14_at_most_one_tick_armed (s : State) (h : Reachable s) : s.timers.length ≤ 1 := by
  rcases (reachable_inv s h).timers_one with h1 | ⟨_, _, id, _, h3⟩
  · rw [h1]
    exact Nat.zero_le 1
  · rw [h3]
    exact Nat.le_refl 1

theorem C14_witness : Reachable demoScored ∧ demoScored.timers.length ≤ 1 :=
  ⟨reachable_demoScored, C14_at_most_one_tick_armed demoScored reachable_demoScored⟩

/-- C15: in every reachable state the board has exactly `ROWS = 20` rows and every
row has exactly `COLUMNS = 10` cells: no handler changes the board's dimensions. -/
theorem C15_board_dimensions_fixed (s : State) (h : Reachable s) :
    s.board.length = 20 ∧ (∀ cells ∈ s.board, cells.length = 10) ∧ ROWS = 20 ∧ COLUMNS = 10 :=
  ⟨(reachable_inv s h).board_wf.1, (reachable_inv s h).board_wf.2, rfl, rfl⟩

theorem C15_witness :
    Reachable demoTwoRows ∧
    (demoTwoRows.board.length = 20 ∧ (∀ cells ∈ demoTwoRows.board, cells.length = 10) ∧
      ROWS = 20 ∧ COLUMNS = 10) :=
  ⟨reachable_demoTwoRows, C15_board_dimensions_fixed demoTwoRows reachable_demoTwoRows⟩

/-- C16: in every reachable state in which the game is not over (Running or
Paused) `currentPiece` and `nextPiece` are both non-null, and in every reachable
state every handler and the tick complete: none reads a property of a null
piece. -/
theorem C16_pieces_present_while_not_over (s : State) (h : Reachable s) :
    (s.gameOver = false → ∃ p q, s.currentPiece = some p ∧ s.nextPiece = some q) ∧
    ∀ e, ∃ s1, step s e = some s1 := by
  have hinv := reachable_inv s h
  constructor
  · intro hover
    obtain ⟨p, q, hp, hq, _⟩ := hinv.active hover
    exact ⟨p, q, hp, hq⟩
  · intro e
    obtain ⟨s1, hs1, _⟩ := inv_step s hinv e
    exact ⟨s1, hs1⟩

theorem C16_witness :
    Reachable demoPaused ∧
    ((demoPaused.gameOver = false →
        ∃ p q, demoPaused.currentPiece = some p ∧ demoPaused.nextPiece = some q) ∧
      ∀ e, ∃ s1, step demoPaused e = some s1) :=
  ⟨reachable_demoPaused, C16_pieces_present_while_not_over demoPaused reachable_demoPaused⟩

/-- The catalog entry, position and width of the piece `createPiece` returns. -/
theorem createPiece_table (i : Fin 7) :
    ∃ t p, TETROMINOS[i.val]? = some t ∧ createPiece i = some p ∧
      p.shape = t.shape ∧ p.color = t.color ∧ p.y = 0 ∧
      p.x = ((COLUMNS / 2 : Nat) : Int) - (((t.shape.headD []).length / 2 : Nat) : Int) ∧
      p.x = (if i = 0 then 3 else 4) ∧
      0 ≤ p.x ∧ p.x + ((t.shape.headD []).length : Int) ≤ COLUMNS ∧
      (∀ cells ∈ t.shape, cells.length = (t.shape.headD []).length) := by
  fin_cases i <;>
    exact ⟨_, _, rfl, rfl, rfl, rfl, rfl, by decide, by decide, by decide, by decide, by decide⟩

/-- C17: starting a game whose first piece is the I piece and descending it with 19
soft-drops (arrow key or button) and no lateral move or rotation, the tick that
follows finds it blocked and locks it in the bottom row: afterwards row 19 holds
the I colour in exactly the columns 3 to 6 and is empty in the other 6 columns,
every other row is empty, and the score is still 0, whatever pieces are drawn
for the buffer. -/
theorem C17_I_piece_locks_in_bottom_row (r2 r3 r4 : Fin 7) :
    (run init ([Event.startClick 0 r2] ++ List.replicate 19 (Event.keydown Key.ArrowDown) ++
        [Event.tick r3 r4])).map (fun s => (s.board, s.score)) = some (boardWithI, 0) ∧
    (run init ([Event.startClick 0 r2] ++ List.replicate 19 Event.downClick ++
        [Event.tick r3 r4])).map (fun s => (s.board, s.score)) = some (boardWithI, 0) ∧
    boardWithI[19]? =
      some [Cell.zero, Cell.zero, Cell.zero, Cell.color 0x00ffff, Cell.color 0x00ffff,
            Cell.color 0x00ffff, Cell.color 0x00ffff, Cell.zero, Cell.zero, Cell.zero] ∧
    boardWithI.take 19 = List.replicate 19 (List.replicate 10 Cell.zero) ∧
    boardWithI.length = 20 := by
  revert r2 r3 r4
  decide!

/-- C18: for each of the 7 catalog entries, `createPiece` returns that entry's
shape and colour at `y = 0` and `x = floor(COLUMNS / 2) - floor(width / 2)` (3 for
I, 4 for the other six), a position at which the whole shape matrix, hence every
occupied cell, lies inside the board columns, and at which the piece does not
collide with the empty board. -/
theorem C18_createPiece_centres_catalog_entry (i : Fin 7) :
    ∃ t p, TETROMINOS[i.val]? = some t ∧ createPiece i = some p ∧
      p.shape = t.shape ∧ p.color = t.color ∧ p.y = 0 ∧
      p.x = ((COLUMNS / 2 : Nat) : Int) - (((t.shape.headD []).length / 2 : Nat) : Int) ∧
      p.x = (if i = 0 then 3 else 4) ∧
      0 ≤ p.x ∧ p.x + ((t.shape.headD []).length : Int) ≤ COLUMNS ∧
      (∀ cells ∈ t.shape, cells.length = (t.shape.headD []).length) ∧
      (∀ r c, Occupied p.shape r c → 0 ≤ p.x + (c : Int) ∧ p.x + (c : Int) < COLUMNS) ∧
      checkCollision emptyBoard p 0 0 none = some false := by
  obtain ⟨t, p, ht, hp, h1, h2, h3, h4, h5, h6, h7, h8⟩ := createPiece_table i
  obtain ⟨p1, hp1, _, _, hfree⟩ := createPiece_spec i
  rw [hp] at hp1
  cases hp1
  refine ⟨t, p, ht, hp, h1, h2, h3, h4, h5, h6, h7, h8, ?_, hfree⟩
  intro r c hocc
  have hnc := (checkCollision_false_iff emptyBoard emptyBoard_wf p 0 0 none).mp hfree
  obtain ⟨ha, hb, _⟩ := free_cell emptyBoard emptyBoard_wf p hnc r c hocc
  exact ⟨ha, hb⟩

/-- C19: in every reachable state the flags `gameOver` and `gamePaused` are never
both true, so they encode exactly one of the phases Idle/GameOver (over, not
paused), Running (neither) and Paused (paused, not over). -/
theorem C19_never_over_and_paused (s : State) (h : Reachable s) :
    ¬ (s.gameOver = true ∧ s.gamePaused = true) ∧
    ((s.gameOver = true ∧ s.gamePaused = false) ∨
      (s.gameOver = false ∧ s.gamePaused = false) ∨
      (s.gameOver = false ∧ s.gamePaused = true)) := by
  have hnb := (reachable_inv s h).not_both
  cases hover : s.gameOver with
  | true =>
    have hp := hnb hover
    rw [hp]
    simp
  | false =>
    cases hpaused : s.gamePaused <;> simp

theorem C19_witness :
    Reachable demoPaused ∧
    (¬ (demoPaused.gameOver = true ∧ demoPaused.gamePaused = true) ∧
    ((demoPaused.gameOver = true ∧ demoPaused.gamePaused = false) ∨
      (demoPaused.gameOver = false ∧ demoPaused.gamePaused = false) ∨
      (demoPaused.gameOver = false ∧ demoPaused.gamePaused = true))) :=
  ⟨reachable_demoPaused, C19_never_over_and_paused demoPaused reachable_demoPaused⟩

/-- C20: for every 20x10 board the scan loop of `clearRows` terminates although it
examines the same index again after each removal: with `k` the number of
initially full rows (at most `ROWS`), the loop ends within any budget of at least
`ROWS + k` executions of its body, and within no smaller one, so it executes
exactly `ROWS + k` of them; each removal puts in an empty row, which is never
full. -/
theorem C20_clearRows_loop_bound (board : Board) (hwf : WFBoard board) :
    (∀ fuel, ROWS + board.countP rowFull ≤ fuel →
      clearRowsLoop fuel board ((ROWS : Int) - 1) 0 =
        some (clearedBoard board, board.countP rowFull)) ∧
    (∀ fuel, fuel < ROWS + board.countP rowFull →
      clearRowsLoop fuel board ((ROWS : Int) - 1) 0 = none) ∧
    board.countP rowFull ≤ ROWS ∧
    rowFull emptyRow = false := by
  have hlen := hwf.1
  refine ⟨?_, ?_, ?_, emptyRow_not_full⟩
  · intro fuel hfuel
    have := clearRowsLoop_spec fuel board [] 0 (by omega)
    simp only [List.append_nil, hlen, Nat.zero_add] at this
    rw [this]
    rfl
  · intro fuel hfuel
    have := clearRowsLoop_short fuel board [] 0 (by omega)
    simp only [List.append_nil, hlen] at this
    exact this
  · rw [← hlen]
    exact List.countP_le_length _

theorem C20_witness :
    WFBoard sampleBoard ∧
    ((∀ fuel, ROWS + sampleBoard.countP rowFull ≤ fuel →
      clearRowsLoop fuel sampleBoard ((ROWS : Int) - 1) 0 =
        some (clearedBoard sampleBoard, sampleBoard.countP rowFull)) ∧
    (∀ fuel, fuel < ROWS + sampleBoard.countP rowFull →
      clearRowsLoop fuel sampleBoard ((ROWS : Int) - 1) 0 = none) ∧
    sampleBoard.countP rowFull ≤ ROWS ∧
    rowFull emptyRow = false) :=
  ⟨by decide, C20_clearRows_loop_bound sampleBoard (by decide)⟩

end Tetris
